import Mathlib

/-!
# DeltaGlider core — shallow embedding and verification

This file embeds the core of the DeltaGlider object-storage wrapper
(`src/deltaglider/core/service.py`, `src/deltaglider/ports/cache.py`,
`src/deltaglider/client_operations/stats.py`) in Lean 4 and settles the
frozen claims about it.

Modelling conventions:

* Object contents are `Bytes := List Nat`; the SHA-256 hasher and the
  binary-diff engine are external collaborators (spec §1 "Out of scope"),
  modelled as parameters of an `Env` record.  Theorems that need the
  diff engine's documented round-trip law (spec §6.2: any
  `(reference, target) → delta` invertible with bit-exactness) take it
  as a hypothesis; witnesses discharge it with a concrete instance.
* The object store is a single-bucket association list `key ↦ object`;
  the service's `f"{bucket}/{key}"` full-key strings all share one
  bucket, and string-prefix tests on full keys agree with key-level
  prefix tests once the common `bucket ++ "/"` is cancelled.
* Metadata is a string-to-string association list.  `core/models.py`
  is not under `src/`; its pieces are modelled from the spec and marked
  as such in their doc comments.
* Python `tempfile` blocks are modelled with `withTempDir`, which
  removes every created temp file on every exit path — this is the
  guarantee of `with tempfile.TemporaryDirectory()`.
-/

deriving instance DecidableEq for Except

namespace DeltaGlider

/-- Object contents: a byte sequence. -/
abbrev Bytes := List Nat

/-- Object metadata: an association list of string keys and values,
as carried by the object store's custom-metadata channel. -/
abbrev Meta := List (String × String)

/-- Python `metadata.get(k)`: first binding of `k`, if any. -/
def mget (md : Meta) (k : String) : Option String :=
  (md.find? (fun kv => kv.1 == k)).map (·.2)

/-- The alternate `dg-` namespace of a logical metadata name
(`file_sha256 ↦ dg-file-sha256`), as used by the literal reader checks
in `service.py`. -/
def dgKey (name : String) : String :=
  "dg-" ++ ⟨name.data.map (fun c => if c = '_' then '-' else c)⟩

/-- Modelled from the spec: `resolve_metadata` lives in the missing
`core/models.py`.  Spec §3: "Metadata keys are stored with a canonical
and an alternate namespace (bare name and a `dg-` prefix); readers must
accept either ... A reader helper resolves a logical name against both
forms."  We resolve the bare form first, then the `dg-` form. -/
def resolveMetadata (md : Meta) (name : String) : Option String :=
  match mget md name with
  | some v => some v
  | none => mget md (dgKey name)

/-! ## String helpers mirroring the Python string operations on keys -/

/-- Python `s.startswith(pre)`. -/
def strStarts (s pre : String) : Bool :=
  pre.data.isPrefixOf s.data

/-- Python `s.endswith(suf)`. -/
def strEnds (s suf : String) : Bool :=
  suf.data.isSuffixOf s.data

/-- Python `c in s` for a single character. -/
def containsChar (s : String) (c : Char) : Bool :=
  s.data.any (· == c)

/-- Python `s.split("/")` on the underlying character list. -/
def splitSlash : List Char → List (List Char)
  | [] => [[]]
  | c :: rest =>
    match splitSlash rest with
    | [] => [[c]]
    | h :: t => if c = '/' then [] :: h :: t else (c :: h) :: t

/-- Python `"/".join(parts)` on character lists. -/
def joinSlash : List (List Char) → List Char
  | [] => []
  | [x] => x
  | x :: y :: ys => x ++ '/' :: joinSlash (y :: ys)

/-- Python `"/".join(key.split("/")[:-1])` (also `key.rsplit("/", 1)[0]`
for keys that contain a slash): everything before the last slash. -/
def dirnameS (s : String) : String :=
  ⟨joinSlash ((splitSlash s.data).dropLast)⟩

/-- Python `ref_key[:-14]`, stripping the trailing `"/reference.bin"`. -/
def stripRefSuffix (s : String) : String :=
  ⟨s.data.take (s.data.length - 14)⟩

/-! ## Object store and cache state -/

/-- A stored object: its content bytes and its custom metadata. -/
structure StoredObj where
  content : Bytes
  md : Meta
deriving Repr, DecidableEq

/-- The object store of one bucket: `key ↦ object`, in listing order. -/
abbrev Store := List (String × StoredObj)

/-- `storage.head`: metadata/existence lookup by key. -/
def Store.headObj (st : Store) (k : String) : Option StoredObj :=
  (st.find? (fun kv => kv.1 == k)).map (·.2)

/-- `storage.put`: overwrite or insert an object. -/
def Store.putObj (st : Store) (k : String) (o : StoredObj) : Store :=
  (k, o) :: st.filter (fun kv => !(kv.1 == k))

/-- `storage.delete`. -/
def Store.delObj (st : Store) (k : String) : Store :=
  st.filter (fun kv => !(kv.1 == k))

/-- `storage.list(prefix)`: every object whose key starts with the raw
string prefix, in listing order (S3 semantics). -/
def Store.listPfx (st : Store) (pfx : String) : Store :=
  st.filter (fun kv => strStarts kv.1 pfx)

/-- The local reference cache: `(bucket, prefix) ↦ cached bytes`. -/
abbrev Cache := List ((String × String) × Bytes)

/-- Cached content for a deltaspace, if any. -/
def Cache.lookupRef (c : Cache) (b p : String) : Option Bytes :=
  (c.find? (fun e => e.1 == (b, p))).map (·.2)

/-- `write_ref`: copy content into the cache, indexed by the deltaspace. -/
def Cache.writeRef (c : Cache) (b p : String) (bytes : Bytes) : Cache :=
  ((b, p), bytes) :: c.filter (fun e => !(e.1 == (b, p)))

/-- `evict`: remove the cache entry of a deltaspace. -/
def Cache.evict (c : Cache) (b p : String) : Cache :=
  c.filter (fun e => !(e.1 == (b, p)))

/-- The mutable world a service call sees: object store plus cache. -/
structure World where
  store : Store
  cache : Cache
deriving Repr, DecidableEq

/-! ## External collaborators (spec §1 "Out of scope", §6.2) -/

/-- The capability set the core is polymorphic over: hasher, diff
engine, and the delta-candidate classifier
(`core/delta_extensions.py` is not under `src/`; the classifier is an
opaque boolean parameter, which is all the service observes of it). -/
structure Env where
  hash : Bytes → String
  encode : Bytes → Bytes → Bytes
  decode : Bytes → Bytes → Bytes
  isCandidate : String → Bool

/-- `decode(ref, encode(ref, target)) = target`: the bit-exact
invertibility the spec (§6.2) demands of any acceptable diff engine. -/
def DiffRoundTrip (env : Env) : Prop :=
  ∀ ref target, env.decode ref (env.encode ref target) = target

/-- Writer metadata keys carry both the bare and the `dg-` namespace.
Modelled from the spec: the `to_dict` writers live in the missing
`core/models.py`; §3 says "Metadata keys are stored with a canonical
and an alternate namespace (bare name and a `dg-` prefix)", and the
literal reader checks in `service.py` (`"dg-file-sha256" in metadata`,
`metadata.get("compression")`, `metadata.get("ref_key")`) need both
forms visible on head for the documented get/delete flows to work. -/
def dualNs (pairs : List (String × String)) : Meta :=
  pairs ++ pairs.map (fun kv => (dgKey kv.1, kv.2))

/-- Modelled from the spec (§3 `ReferenceMeta`, `core/models.py`
missing): metadata persisted on `reference.bin`. -/
def referenceMetaDict (tool srcName sha : String) : Meta :=
  dualNs [("tool", tool), ("source_name", srcName),
          ("file_sha256", sha), ("created_at", "t")]

/-- Modelled from the spec (§3 `DeltaMeta`, `core/models.py` missing):
metadata persisted on `*.delta` objects. -/
def deltaMetaDict (tool name sha : String) (size : Nat)
    (refK refSha : String) (dsize : Nat) (note : Option String) : Meta :=
  dualNs ([("tool", tool), ("original_name", name), ("file_sha256", sha),
           ("file_size", toString size), ("created_at", "t"),
           ("ref_key", refK), ("ref_sha256", refSha),
           ("delta_size", toString dsize),
           ("delta_cmd", "xdelta3 -e -9 -s")] ++
          (match note with
           | some n => [("note", n)]
           | none => []))

/-- Metadata written by `_upload_direct` (`service.py` lines 595–602):
the literal dict in the source uses bare keys only. -/
def directMetaDict (tool name sha : String) (size : Nat) : Meta :=
  [("tool", tool), ("original_name", name), ("file_sha256", sha),
   ("file_size", toString size), ("created_at", "t"),
   ("compression", "none")]

/-- The fields of a delta's metadata that `get` consumes. -/
structure DeltaMeta where
  fileSha256 : String
  refKey : String
  refSha256 : String
deriving Repr, DecidableEq

/-- Modelled from the spec (`core/models.py` missing):
`DeltaMeta.from_dict` resolves each required logical field against both
namespaces and fails when a required field is absent. -/
def DeltaMeta.fromDict (md : Meta) : Option DeltaMeta := do
  let f ← resolveMetadata md "file_sha256"
  let rk ← resolveMetadata md "ref_key"
  let rs ← resolveMetadata md "ref_sha256"
  pure ⟨f, rk, rs⟩

/-- A local file handed to `put`. -/
structure File where
  name : String
  content : Bytes
deriving Repr, DecidableEq

/-- Error taxonomy of the embedding (spec §7 plus the plain
`ValueError` of `_create_delta` and the metadata-parse failure of
`DeltaMeta.from_dict`). -/
inductive Err where
  | notFound
  | integrityMismatch
  | diffDecode
  | metadataParse
  | valueError
  | storeGet
  | cacheMiss
deriving Repr, DecidableEq

/-- Tool identifier recorded in writer metadata (value irrelevant to
the claims). -/
def toolVersion : String := "deltaglider"

/-- Python `f"{prefix}/{name}" if prefix else name`. -/
def joinKey (p name : String) : String :=
  if p = "" then name else p ++ "/" ++ name

/-- `DeltaSpace.reference_key()` (spec §3): `prefix + "/reference.bin"`,
or `"reference.bin"` when the prefix is empty. -/
def referenceKey (p : String) : String :=
  joinKey p "reference.bin"

/-- `service.get` lines 225–229: the deltaspace prefix derived from the
delta's `ref_key` (everything before the last `/`, or `""` when the
key has no slash). -/
def derivedPrefix (refKey : String) : String :=
  if containsChar refKey '/' then dirnameS refKey else ""

namespace DeltaService

/-- `CachePort.has_ref` semantics: true only if an entry is present and
its content SHA equals `sha` (port docstring / spec §4.4). -/
def hasRef (env : Env) (c : Cache) (b p sha : String) : Bool :=
  match c.lookupRef b p with
  | some bytes => env.hash bytes == sha
  | none => false

/-- `DeltaService._cache_reference`: download `prefix/reference.bin`,
verify its SHA against the expected one (mismatch →
`IntegrityMismatchError`, nothing cached), then cache it. -/
def cacheReference (env : Env) (w : World) (b p sha : String) :
    Except Err Cache :=
  match w.store.headObj (referenceKey p) with
  | none => .error .storeGet
  | some o =>
    if env.hash o.content == sha then .ok (w.cache.writeRef b p o.content)
    else .error .integrityMismatch

/-- Modelled from the spec (§4.4, the cache adapters are not under
`src/`): `get_validated_ref(bucket, prefix, sha)` returns a path whose
bytes are guaranteed to hash to `sha`; it fails rather than hand out
non-matching content. -/
def getValidatedRef (env : Env) (c : Cache) (b p sha : String) :
    Except Err Bytes :=
  match c.lookupRef b p with
  | some bytes => if env.hash bytes == sha then .ok bytes else .error .cacheMiss
  | none => .error .cacheMiss

/-- The `has_ref` / `_cache_reference` / `get_validated_ref` sequence
shared by `get` (lines 232–245) and `_create_delta` (lines 423–429):
ensure the reference is cached, then acquire validated content.
Returns the content, the resulting cache, and the `cache_hit` flag. -/
def ensureValidatedRef (env : Env) (w : World) (b p sha : String) :
    Except Err (Bytes × Cache × Bool) :=
  if hasRef env w.cache b p sha then
    match getValidatedRef env w.cache b p sha with
    | .ok bytes => .ok (bytes, w.cache, true)
    | .error e => .error e
  else
    match cacheReference env w b p sha with
    | .error e => .error e
    | .ok c =>
      match getValidatedRef env c b p sha with
      | .ok bytes => .ok (bytes, c, false)
      | .error e => .error e

/-- Python `with tempfile.TemporaryDirectory()`: the bracket deletes
every temp file in the directory on every exit path, success or
exception, so the list of surviving temp files is empty. -/
def withTempDir (created : List String) (body : α) : α × List String :=
  (body, created.filter (fun _ => false))

/-- Outcome of a `get`: bytes delivered to the sink (`none` when the
sink was never written), the raised error if any, the cache after the
call, and the temp files still existing after the call. -/
structure GetOut where
  sink : Option Bytes
  res : Except Err Unit
  cache : Cache
  temps : List String
deriving Repr, DecidableEq

/-- `DeltaService._get_direct` (lines 533–570): stream the object's
bytes to the sink, then — only if a `file_sha256` resolves from either
namespace and the sink is a file path — hash the result and raise
`IntegrityMismatchError` on mismatch.  For stream sinks verification
is skipped with a warning. -/
def getDirect (env : Env) (o : StoredObj) (c : Cache) (sinkIsPath : Bool) :
    GetOut :=
  let sunk := some o.content
  match resolveMetadata o.md "file_sha256" with
  | none => ⟨sunk, .ok (), c, []⟩
  | some s =>
    if s = "" then ⟨sunk, .ok (), c, []⟩
    else if sinkIsPath then
      if env.hash o.content == s then ⟨sunk, .ok (), c, []⟩
      else ⟨sunk, .error .integrityMismatch, c, []⟩
    else ⟨sunk, .ok (), c, []⟩

/-- The delta branch of `DeltaService.get` (lines 219–273): derive the
deltaspace prefix from `ref_key`, ensure/validate the cached
reference, download the delta into a temp file, decode into a temp
output, verify the output hash against the stored `file_sha256`
(mismatch → `IntegrityMismatchError`, sink untouched), then move the
output to the sink.  The temp directory is removed on every path. -/
def getDelta (env : Env) (w : World) (b key : String) (o : StoredObj)
    (dm : DeltaMeta) (_sinkIsPath : Bool) : GetOut :=
  let p := derivedPrefix dm.refKey
  let tmps := [key ++ ".delta.tmp", key ++ ".out.tmp"]
  match ensureValidatedRef env w b p dm.refSha256 with
  | .error e =>
    { sink := none, res := .error e, cache := w.cache,
      temps := (withTempDir tmps ()).2 }
  | .ok (refBytes, c, _hit) =>
    let outBytes := env.decode refBytes o.content
    if env.hash outBytes == dm.fileSha256 then
      { sink := some outBytes, res := .ok (), cache := c,
        temps := (withTempDir tmps ()).2 }
    else
      { sink := none, res := .error .integrityMismatch, cache := c,
        temps := (withTempDir tmps ()).2 }

/-- `DeltaService.get` (lines 169–284): head the object (absent →
`NotFoundError`); without a literal `dg-file-sha256` metadata key treat
it as a foreign object (`_get_direct`); with `compression == "none"`
treat it as a DeltaGlider direct upload (`_get_direct`); otherwise
parse `DeltaMeta` and run the delta branch. -/
def get (env : Env) (w : World) (b key : String) (sinkIsPath : Bool) :
    GetOut :=
  match w.store.headObj key with
  | none => { sink := none, res := .error .notFound, cache := w.cache, temps := [] }
  | some o =>
    if (mget o.md "dg-file-sha256").isNone then
      getDirect env o w.cache sinkIsPath
    else if mget o.md "compression" == some "none" then
      getDirect env o w.cache sinkIsPath
    else
      match DeltaMeta.fromDict o.md with
      | none => { sink := none, res := .error .metadataParse, cache := w.cache, temps := [] }
      | some dm => getDelta env w b key o dm sinkIsPath

/-- The summary returned by `put` (spec §4.1 / `core/models.py`
`PutSummary`, fields as emitted by the CLI). -/
structure PutSummary where
  operation : String
  bucket : String
  key : String
  originalName : String
  fileSize : Nat
  fileSha256 : String
  deltaSize : Option Nat := none
  deltaRatio : Option ℚ := none
  refKey : Option String := none
  refSha256 : Option String := none
  cacheHit : Bool := false
deriving Repr, DecidableEq

/-- `DeltaService._upload_direct` (lines 578–621): upload the file
verbatim at `prefix/original_name` with the literal bare-key metadata
dict of the source, and return `operation="upload_direct"`. -/
def uploadDirect (_env : Env) (w : World) (f : File) (b p sha name : String)
    (size : Nat) : PutSummary × World :=
  ({ operation := "upload_direct", bucket := b, key := joinKey p name,
     originalName := name, fileSize := size, fileSha256 := sha },
   ⟨w.store.putObj (joinKey p name)
      ⟨f.content, directMetaDict toolVersion name sha size⟩, w.cache⟩)

/-- `DeltaService._create_reference` (lines 320–405), with an explicit
`interfere` hook standing for what other writers do to the store
between the reference upload and the re-head (the reference-creation
race of spec §5): upload the reference, re-head it, bind the zero
delta to the observed SHA when it is non-empty and differs from the
file's own, cache the local file, encode the file against itself and
upload the zero delta, and return `operation="create_reference"` keyed
at the reference. -/
def createReferenceWith (interfere : Store → Store) (env : Env) (w : World)
    (f : File) (b p sha name : String) (size : Nat) : PutSummary × World :=
  let refK := referenceKey p
  let st1 := w.store.putObj refK ⟨f.content, referenceMetaDict toolVersion name sha⟩
  let st2 := interfere st1
  let refSha :=
    match st2.headObj refK with
    | some h =>
      match resolveMetadata h.md "file_sha256" with
      | some s => if s ≠ "" ∧ s ≠ sha then s else sha
      | none => sha
    | none => sha
  let c1 := w.cache.writeRef b p f.content
  let zd := env.encode f.content f.content
  let dKey := joinKey p (name ++ ".delta")
  let st3 := st2.putObj dKey
    ⟨zd, deltaMetaDict toolVersion name sha size refK refSha zd.length
         (some "zero-diff (reference identical)")⟩
  ({ operation := "create_reference", bucket := b, key := refK,
     originalName := name, fileSize := size, fileSha256 := sha },
   ⟨st3, c1⟩)

/-- `DeltaService._create_delta` (lines 407–503): read the reference's
`file_sha256` (absent or empty → plain `ValueError`, nothing mutated),
ensure/validate the cached reference, encode the delta, and upload it
at `prefix/original_name.delta` with `DeltaMeta`.  A
`delta_ratio > max_ratio` only emits a non-fatal policy warning. -/
def createDelta (env : Env) (w : World) (refHead : StoredObj) (f : File)
    (b p sha name : String) (size : Nat) (_maxRatio : ℚ) :
    Except Err PutSummary × World :=
  let refK := referenceKey p
  match resolveMetadata refHead.md "file_sha256" with
  | none => (.error .valueError, w)
  | some rs =>
    if rs = "" then (.error .valueError, w)
    else
      match ensureValidatedRef env w b p rs with
      | .error e => (.error e, w)
      | .ok (refBytes, c, hit) =>
        (.ok { operation := "create_delta", bucket := b,
               key := joinKey p (name ++ ".delta"), originalName := name,
               fileSize := size, fileSha256 := sha,
               deltaSize := some (env.encode refBytes f.content).length,
               deltaRatio := some
                 (((env.encode refBytes f.content).length : ℚ) / (size : ℚ)),
               refKey := some refK, refSha256 := some rs, cacheHit := hit },
         ⟨w.store.putObj (joinKey p (name ++ ".delta"))
            ⟨env.encode refBytes f.content,
             deltaMetaDict toolVersion name sha size refK rs
               (env.encode refBytes f.content).length none⟩, c⟩)

/-- `DeltaService.put` (lines 91–167) with the explicit interference
hook threaded to `_create_reference`: hash and size the file, classify
it, and dispatch to direct upload, reference creation, or delta
creation. -/
def putWith (interfere : Store → Store) (env : Env) (w : World) (f : File)
    (b p : String) (maxRatio : ℚ) : Except Err PutSummary × World :=
  if env.isCandidate f.name then
    match w.store.headObj (referenceKey p) with
    | none =>
      (.ok (createReferenceWith interfere env w f b p (env.hash f.content)
          f.name f.content.length).1,
       (createReferenceWith interfere env w f b p (env.hash f.content)
          f.name f.content.length).2)
    | some h =>
      createDelta env w h f b p (env.hash f.content) f.name f.content.length
        maxRatio
  else
    (.ok (uploadDirect env w f b p (env.hash f.content) f.name
        f.content.length).1,
     (uploadDirect env w f b p (env.hash f.content) f.name
        f.content.length).2)

/-- `DeltaService.put` as invoked sequentially: no interference between
the reference upload and the re-head. -/
def put (env : Env) (w : World) (f : File) (b p : String) (maxRatio : ℚ) :
    Except Err PutSummary × World :=
  putWith id env w f b p maxRatio

/-- The result of a delta-aware delete (`core/models.py`
`DeleteResult`, fields as used by `service.py`). -/
structure DeleteResult where
  key : String
  bucket : String
  deleted : Bool := false
  type : String := ""
  originalName : Option String := none
  cleanedReference : Option String := none
  dependentDeltas : Nat := 0
  warnings : List String := []
deriving Repr, DecidableEq

/-- `DeltaService._delete_reference` (lines 669–702): list siblings,
count dependent deltas (those whose bare `ref_key` metadata equals this
key), warn if any, delete the reference anyway, and evict the cache
entry when the key contains a slash. -/
def deleteReference (w : World) (b key : String) : DeleteResult × World :=
  let pfx := if containsChar key '/' then dirnameS key else ""
  let deps := (w.store.listPfx pfx).filter (fun kv =>
    strEnds kv.1 ".delta" && kv.1 != key &&
      (match w.store.headObj kv.1 with
       | some h => mget h.md "ref_key" == some key
       | none => false))
  let warns := if deps.isEmpty then ([] : List String)
    else ["Reference has dependent delta(s); deleting makes them unrecoverable"]
  let st1 := w.store.delObj key
  let c1 := if containsChar key '/' then w.cache.evict b (dirnameS key) else w.cache
  ({ key := key, bucket := b, deleted := true, type := "reference",
     dependentDeltas := deps.length, warnings := warns },
   ⟨st1, c1⟩)

/-- `DeltaService._delete_delta` (lines 704–744): delete the delta;
when the key contains a slash, list the deltaspace for remaining
deltas, and if none remain and `reference.bin` is present, delete it,
record `cleaned_reference`, and evict the cache entry. -/
def deleteDelta (w : World) (b key : String) (o : StoredObj) :
    DeleteResult × World :=
  let st1 := w.store.delObj key
  let res : DeleteResult :=
    { key := key, bucket := b, deleted := true, type := "delta",
      originalName := some ((mget o.md "original_name").getD "unknown") }
  if containsChar key '/' then
    let ds := dirnameS key
    let refK := ds ++ "/reference.bin"
    let remaining := (st1.listPfx ds).filter (fun kv =>
      strEnds kv.1 ".delta" && kv.1 != key)
    if remaining.isEmpty then
      match st1.headObj refK with
      | some _ =>
        ({ res with cleanedReference := some refK },
         ⟨st1.delObj refK, w.cache.evict b ds⟩)
      | none => (res, ⟨st1, w.cache⟩)
    else (res, ⟨st1, w.cache⟩)
  else (res, ⟨st1, w.cache⟩)

/-- `DeltaService.delete` (lines 623–667): head the object (absent →
`NotFoundError`) and dispatch on its class: `.../reference.bin`,
`*.delta`, direct (`compression == "none"`), or unknown. -/
def delete (w : World) (b key : String) : Except Err (DeleteResult × World) :=
  match w.store.headObj key with
  | none => .error .notFound
  | some o =>
    if strEnds key "/reference.bin" then .ok (deleteReference w b key)
    else if strEnds key ".delta" then .ok (deleteDelta w b key o)
    else if mget o.md "compression" == some "none" then
      .ok ({ key := key, bucket := b, deleted := true, type := "direct",
             originalName := some ((mget o.md "original_name").getD key) },
           ⟨w.store.delObj key, w.cache⟩)
    else
      .ok ({ key := key, bucket := b, deleted := true, type := "unknown" },
           ⟨w.store.delObj key, w.cache⟩)

/-- The result of `delete_recursive` (`core/models.py`
`RecursiveDeleteResult`). -/
structure RecursiveDeleteResult where
  bucket : String
  delPrefix : String
  deletedCount : Nat := 0
  failedCount : Nat := 0
  deltasDeleted : Nat := 0
  referencesDeleted : Nat := 0
  directDeleted : Nat := 0
  otherDeleted : Nat := 0
  warnings : List String := []
  errors : List String := []
deriving Repr, DecidableEq

/-- The classification produced by
`_classify_objects_for_deletion`. -/
structure Classified where
  refs : List String
  deltas : List String
  directs : List String
  others : List String
  aff : List String
deriving Repr, DecidableEq

/-- `DeltaService._classify_objects_for_deletion` (lines 818–849) over
a listing: split into references, deltas, direct uploads and other
objects, and collect the deltaspaces of deleted deltas.  (The Python
`affected_deltaspaces` is a set with unspecified iteration order; the
dedup order chosen here is one of its admissible orders.) -/
def classifyList : List (String × StoredObj) → Classified
  | [] => ⟨[], [], [], [], []⟩
  | kv :: rest =>
    let c := classifyList rest
    if strEnds kv.1 "/reference.bin" then
      { c with refs := kv.1 :: c.refs }
    else if strEnds kv.1 ".delta" then
      let aff2 :=
        if containsChar kv.1 '/' then
          let ds := dirnameS kv.1
          if c.aff.contains ds then c.aff else ds :: c.aff
        else c.aff
      { c with deltas := kv.1 :: c.deltas, aff := aff2 }
    else if mget kv.2.md "compression" == some "none" then
      { c with directs := kv.1 :: c.directs }
    else { c with others := kv.1 :: c.others }

/-- Classification of everything listed under the normalized prefix. -/
def classifyForDeletion (st : Store) (p : String) : Classified :=
  classifyList (st.listPfx p)

/-- `delete_recursive` lines 765–771: for each affected deltaspace,
schedule its `reference.bin` for the reference pass when it exists and
is not already scheduled. -/
def addMissingRefs (st : Store) : List String → List String → List String
  | refs, [] => refs
  | refs, ds :: rest =>
    if refs.contains (ds ++ "/reference.bin") then
      addMissingRefs st refs rest
    else match st.headObj (ds ++ "/reference.bin") with
      | some _ => addMissingRefs st (refs ++ [ds ++ "/reference.bin"]) rest
      | none => addMissingRefs st refs rest

/-- Phase 2 of `delete_recursive` (lines 782–791): delete the
non-reference objects in dependency order. -/
def phase2Delete (st : Store) : List String → Store
  | [] => st
  | k :: ks => phase2Delete (st.delObj k) ks

/-- `_delete_references_if_safe` lines 867–870: the deltaspace listing
prefix of a scheduled reference (strip `"/reference.bin"`, or list the
whole bucket for a malformed entry). -/
def refPassDs (r : String) : String :=
  if strEnds r "/reference.bin" then stripRefSuffix r else ""

/-- `_delete_references_if_safe` lines 873–877: the `has_remaining_files`
check for reference `r` against the current store. -/
def refRemaining (st : Store) (p r : String) : Bool :=
  (st.listPfx (refPassDs r)).any (fun kv =>
    (!((p != "") && strStarts kv.1 p)) && kv.1 != r)

/-- `DeltaService._delete_references_if_safe` (lines 851–895): for each
scheduled reference, list everything still live under its deltaspace;
an object counts as remaining when it is not the reference itself and
is not inside the (nonempty) deletion prefix.  If anything remains the
reference is kept with a warning, otherwise it is deleted.  Returns
the final store, the deleted references and the kept references. -/
def refPassGo (st : Store) (p : String) :
    List String → Store × List String × List String
  | [] => (st, [], [])
  | r :: rs =>
    if refRemaining st p r then
      ((refPassGo st p rs).1, (refPassGo st p rs).2.1,
       r :: (refPassGo st p rs).2.2)
    else
      ((refPassGo (st.delObj r) p rs).1,
       r :: (refPassGo (st.delObj r) p rs).2.1,
       (refPassGo (st.delObj r) p rs).2.2)

/-- Python `prefix.rstrip("/")`. -/
def rstripSlash (s : String) : String :=
  ⟨(s.data.reverse.dropWhile (fun c => c == '/')).reverse⟩

/-- `delete_recursive` lines 757–758: append a trailing slash to a
nonempty prefix. -/
def normalizeDelPrefix (p : String) : String :=
  if p ≠ "" ∧ ¬ strEnds p "/" then p ++ "/" else p

/-- The references scheduled for the reference pass of
`delete_recursive`: those classified under the prefix plus the
existing `reference.bin` of every affected deltaspace. -/
def scheduledRefs (st : Store) (p0 : String) : List String :=
  let c := classifyForDeletion st (normalizeDelPrefix p0)
  addMissingRefs st c.refs c.aff

/-- The non-reference keys deleted by phase 2 of `delete_recursive`,
in dependency order (other → direct → delta). -/
def nonRefKeys (st : Store) (p0 : String) : List String :=
  let c := classifyForDeletion st (normalizeDelPrefix p0)
  c.others ++ c.directs ++ c.deltas

/-- The store after phase 2 of `delete_recursive`. -/
def phase2Store (st : Store) (p0 : String) : Store :=
  phase2Delete st (nonRefKeys st p0)

/-- `DeltaService.delete_recursive` (lines 746–816): normalize the
prefix, classify, add parent references of affected deltaspaces,
delete other → direct → delta, run the reference safety pass, and
evict the cache for the prefix when any reference was scheduled. -/
def deleteRecursive (w : World) (b p0 : String) :
    RecursiveDeleteResult × World :=
  let p := normalizeDelPrefix p0
  let c := classifyForDeletion w.store p
  let refs := scheduledRefs w.store p0
  let st1 := phase2Store w.store p0
  let dels := (refPassGo st1 p refs).2.1
  let kept := (refPassGo st1 p refs).2.2
  let c1 := if refs.isEmpty then w.cache else w.cache.evict b (rstripSlash p)
  ({ bucket := b, delPrefix := p,
     deletedCount := (nonRefKeys w.store p0).length + dels.length,
     failedCount := 0,
     deltasDeleted := c.deltas.length,
     referencesDeleted := refs.length - kept.length,
     directDeleted := c.directs.length,
     otherDeleted := c.others.length,
     warnings := kept.map (fun r => "Kept reference " ++ r ++ " (still in use)"),
     errors := [] },
   ⟨(refPassGo st1 p refs).1, c1⟩)

/-- The part of a store outside the (raw string) deletion prefix:
exactly the objects the recursive-delete passes never touch. -/
def filterOutside (p : String) (st : Store) : Store :=
  st.filter (fun kv => !(strStarts kv.1 p))

/-- The claim's reading of "something still live remains in the
deltaspace of `r` outside the deletion prefix, excluding `r` itself",
evaluated against a store. -/
def staticRemaining (st : Store) (p r : String) : Bool :=
  (st.listPfx (refPassDs r)).any (fun kv =>
    (!(strStarts kv.1 p)) && kv.1 != r)

/-- The claim C6 proposition, decidably: every scheduled reference is
deleted by the reference pass iff nothing still live remains in its
deltaspace outside the deletion prefix (excluding the reference
itself), evaluated on the store after the non-reference pass. -/
def c6ClaimHolds (w : World) (p0 : String) : Bool :=
  let p := normalizeDelPrefix p0
  let st1 := phase2Store w.store p0
  let refs := scheduledRefs w.store p0
  refs.all (fun r =>
    ((refPassGo st1 p refs).2.1.contains r) == !(staticRemaining st1 p r))

end DeltaService

namespace Stats

/-- One listed object as the stats aggregator sees it
(`client_operations/stats.py`). -/
structure ObjectInfo where
  key : String
  size : Nat
  originalSize : Nat
  isDelta : Bool
  referenceKey : Option String
deriving Repr, DecidableEq

/-- `client_models.BucketStats` as constructed by
`_calculate_bucket_statistics`. -/
structure BucketStats where
  bucket : String
  objectCount : Nat
  totalSize : Nat
  compressedSize : Nat
  spaceSaved : Int
  averageCompressionRatio : ℚ
  deltaObjects : Nat
  directObjects : Nat
deriving Repr, DecidableEq

/-- The warnings and errors the aggregator logs. -/
inductive StatsWarn where
  | orphanedReferences
  | deltaFallback (key : String)
  | maxIterationsReached
  | paginationError
  | paginationBug
deriving Repr, DecidableEq

/-- `stats.py` line 244: `obj.key.endswith("/reference.bin") or
obj.key == "reference.bin"`. -/
def isRefObj (k : String) : Bool :=
  strEnds k "/reference.bin" || k == "reference.bin"

/-- `stats.py` line 245: the deltaspace of a `reference.bin` key. -/
def refDeltaspace (k : String) : String :=
  if containsChar k '/' then stripRefSuffix k else ""

/-- Dict-update semantics for `reference_files[deltaspace] = size`. -/
def updateAssoc (l : List (String × Nat)) (k : String) (v : Nat) :
    List (String × Nat) :=
  if l.any (fun e => e.1 == k) then
    l.map (fun e => if e.1 == k then (k, v) else e)
  else l ++ [(k, v)]

/-- First pass of `_calculate_bucket_statistics` (lines 243–250): the
`reference_files` dict. -/
def refFilesOf (objs : List ObjectInfo) : List (String × Nat) :=
  objs.foldl
    (fun acc o => if isRefObj o.key then updateAssoc acc (refDeltaspace o.key) o.size else acc)
    []

/-- First pass: the delta object count. -/
def deltaCountOf (objs : List ObjectInfo) : Nat :=
  (objs.filter (fun o => !isRefObj o.key && o.isDelta)).length

/-- First pass: the direct object count. -/
def directCountOf (objs : List ObjectInfo) : Nat :=
  (objs.filter (fun o => !isRefObj o.key && !o.isDelta)).length

/-- Second pass of `_calculate_bucket_statistics` (lines 252–270):
accumulate `(total_original_size, total_compressed_size)` over the
non-reference objects, warning when a delta falls back to its
compressed size. -/
def secondPass : List ObjectInfo → Nat × Nat × List StatsWarn
  | [] => (0, 0, [])
  | o :: rest =>
    let (torig, tcomp, ws) := secondPass rest
    if isRefObj o.key then (torig, tcomp, ws)
    else if o.isDelta then
      if o.originalSize ≠ 0 ∧ o.originalSize ≠ o.size then
        (torig + o.originalSize, tcomp + o.size, ws)
      else
        (torig + o.size, tcomp + o.size, .deltaFallback o.key :: ws)
    else (torig + o.size, tcomp + o.size, ws)

/-- Total size of the collected `reference.bin` files. -/
def refTotalOf (objs : List ObjectInfo) : Nat :=
  ((refFilesOf objs).map (·.2)).sum

/-- `_calculate_bucket_statistics` (lines 221–297). -/
def calcBucketStats (objs : List ObjectInfo) (b : String) :
    BucketStats × List StatsWarn :=
  let torig := (secondPass objs).1
  let tcomp := (secondPass objs).2.1
  let ws := (secondPass objs).2.2
  let dcount := deltaCountOf objs
  let dirCount := directCountOf objs
  let refTotal := refTotalOf objs
  let tcomp2 :=
    if dcount > 0 ∧ refTotal > 0 then tcomp + refTotal else tcomp
  let ws2 :=
    if dcount > 0 ∧ refTotal > 0 then ws
    else if dcount = 0 ∧ refTotal > 0 then ws ++ [.orphanedReferences]
    else ws
  let saved : Int := (torig : Int) - (tcomp2 : Int)
  let ratio : ℚ := if torig > 0 then (saved : ℚ) / (torig : ℚ) else 0
  ({ bucket := b, objectCount := dcount + dirCount, totalSize := torig,
     compressedSize := tcomp2, spaceSaved := saved,
     averageCompressionRatio := ratio, deltaObjects := dcount,
     directObjects := dirCount }, ws2)

/-- A raw listed object (`stats.py` object dicts). -/
structure RawObj where
  key : String
  size : Nat
deriving Repr, DecidableEq

/-- One `list_objects` response page. -/
structure Page where
  objects : List RawObj
  isTruncated : Bool
  nextToken : Option String
deriving Repr, DecidableEq

/-- `_collect_objects_with_pagination` (lines 22–96), driven by
`listFn i`: the outcome of the `i`-th `list_objects` call (`.error`
models a raised exception).  Fuel is the `max_iterations` cap; an
exception with no objects collected re-raises (`RuntimeError`),
otherwise the loop degrades to partial results with a warning. -/
def collectGo (listFn : Nat → Except Unit Page) :
    Nat → Nat → List RawObj → List StatsWarn →
    Except Unit (List RawObj × List StatsWarn)
  | 0, _, acc, ws => .ok (acc, ws ++ [.maxIterationsReached])
  | fuel + 1, i, acc, ws =>
    match listFn i with
    | .error _ =>
      if acc.isEmpty then .error () else .ok (acc, ws ++ [.paginationError])
    | .ok page =>
      let acc2 := acc ++ page.objects
      if !page.isTruncated then .ok (acc2, ws)
      else match page.nextToken with
        | none => .ok (acc2, ws ++ [.paginationBug])
        | some _ => collectGo listFn fuel (i + 1) acc2 ws

/-- The `max_iterations` default (10000). -/
def maxIter : Nat := 10000

/-- `_collect_objects_with_pagination` from an empty accumulator. -/
def collectObjects (listFn : Nat → Except Unit Page) :
    Except Unit (List RawObj × List StatsWarn) :=
  collectGo listFn maxIter 0 [] []

/-- `_build_object_info_list` (lines 161–218) in quick-stats mode
(empty metadata map): sizes fall back to the listed size and
`reference_key` is unknown. -/
def buildInfos (raws : List RawObj) : List ObjectInfo :=
  raws.map (fun r =>
    { key := r.key, size := r.size, originalSize := r.size,
      isDelta := strEnds r.key ".delta", referenceKey := none })

/-- The all-zeros `BucketStats` returned on total listing failure. -/
def zeroStats (b : String) : BucketStats :=
  { bucket := b, objectCount := 0, totalSize := 0, compressedSize := 0,
    spaceSaved := 0, averageCompressionRatio := 0, deltaObjects := 0,
    directObjects := 0 }

/-- What `get_bucket_stats` produces: the stats, the warnings logged,
and whether the last-resort error path was taken. -/
structure StatsOut where
  stats : BucketStats
  warnings : List StatsWarn
  errorLogged : Bool
deriving Repr, DecidableEq

/-- `get_bucket_stats` (lines 383–460), quick-stats mode: collect with
pagination safety, build the object list, calculate statistics; any
failure with zero objects collected degrades to all-zeros stats with
an error logged, and never propagates to the caller. -/
def getBucketStats (listFn : Nat → Except Unit Page) (b : String) : StatsOut :=
  match collectObjects listFn with
  | .error _ => { stats := zeroStats b, warnings := [], errorLogged := true }
  | .ok (raws, ws) =>
    let (s, ws2) := calcBucketStats (buildInfos raws) b
    { stats := s, warnings := ws ++ ws2, errorLogged := false }

end Stats

/-! ## Concrete instances used by counterexamples and witnesses -/

/-- A toy environment: `toString` as (injective-on-small-inputs)
hasher, and the identity-on-target diff engine (`encode ref t = t`,
`decode ref d = d`), which satisfies the round-trip law.  Every name
is a delta candidate. -/
def envT : Env :=
  { hash := fun bs => toString bs
    encode := fun _ t => t
    decode := fun _ d => d
    isCandidate := fun _ => true }

/-- The toy environment classifying nothing as a delta candidate. -/
def envD : Env := { envT with isCandidate := fun _ => false }

/-- The summary the first `put` of `⟨"f.zip", [1]⟩` into deltaspace `p`
of the empty world returns under `envT`. -/
def sC1 : DeltaService.PutSummary :=
  { operation := "create_reference", bucket := "b", key := "p/reference.bin",
    originalName := "f.zip", fileSize := 1, fileSha256 := "[1]" }

/-- The world that same first `put` produces: the zero delta and the
reference in the store, the file cached for the deltaspace. -/
def wC1 : World :=
  ⟨[("p/f.zip.delta",
     ⟨[1], deltaMetaDict toolVersion "f.zip" "[1]" 1 "p/reference.bin" "[1]" 1
        (some "zero-diff (reference identical)")⟩),
    ("p/reference.bin", ⟨[1], referenceMetaDict toolVersion "f.zip" "[1]"⟩)],
   [(("b", "p"), [1])]⟩

/-- A world holding one delta object whose stored `file_sha256` does
not match what its delta decodes to, plus its healthy reference. -/
def wMismatch : World :=
  ⟨[("p/x.delta",
     ⟨[5], deltaMetaDict "dg" "x" "WRONG" 1 "p/reference.bin"
        (toString ([9] : List Nat)) 1 none⟩),
    ("p/reference.bin",
     ⟨[9], referenceMetaDict "dg" "x" (toString ([9] : List Nat))⟩)], []⟩

/-- A world with a root-level delta and a root-level reference. -/
def wRootDelta : World :=
  ⟨[("x.delta", ⟨[1], []⟩), ("reference.bin", ⟨[2], []⟩)], []⟩

/-- A world with two nested deltaspaces (`a` and `a/x`), each holding
one delta and its reference. -/
def wNested : World :=
  ⟨[("a/reference.bin", ⟨[0], []⟩),
    ("a/d.delta", ⟨[2], []⟩),
    ("a/x/reference.bin", ⟨[1], []⟩),
    ("a/x/e.delta", ⟨[3], []⟩)], []⟩

/-- Stats input: one delta that references `a/reference.bin`, and one
collected reference `b/reference.bin` that no delta references. -/
def objsC8 : List Stats.ObjectInfo :=
  [⟨"x.delta", 10, 100, true, some "a/reference.bin"⟩,
   ⟨"b/reference.bin", 50, 50, false, none⟩]

/-- The claim's reading of "a delta references one of the collected
`reference.bin` files": some delta's `reference_key` names a collected
reference object. -/
def anyDeltaReferencesCollected (objs : List Stats.ObjectInfo) : Bool :=
  objs.any (fun o => o.isDelta &&
    objs.any (fun r => Stats.isRefObj r.key && o.referenceKey == some r.key))

/-- A listing script whose first page succeeds (truncated, with token)
and whose second call raises. -/
def lfC9a : Nat → Except Unit Stats.Page := fun i =>
  if i = 0 then .ok ⟨[⟨"k", 3⟩], true, some "t"⟩ else .error ()

/-- A listing script that always raises. -/
def lfC9b : Nat → Except Unit Stats.Page := fun _ => .error ()

/-- An interfering writer that swaps the reference under `p` for
different content between the upload and the re-head. -/
def interfereT : Store → Store := fun st =>
  st.putObj "p/reference.bin" ⟨[9], referenceMetaDict "dg" "g" "OTHER"⟩

/-! ## Helper lemmas: association lists, store and cache operations -/

section AssocLemmas

variable {κ α : Type} [BEq κ] [LawfulBEq κ]

/-- Finding a key other than the filtered-out one is unaffected. -/
lemma find?_filter_ne (l : List (κ × α)) (k k' : κ) (h : k' ≠ k) :
    (l.filter (fun kv => !(kv.1 == k))).find? (fun kv => kv.1 == k') =
      l.find? (fun kv => kv.1 == k') := by
  have hkk : k ≠ k' := fun e => h e.symm
  induction l with
  | nil => rfl
  | cons a t ih =>
    by_cases hk : a.1 = k
    · have h1 : (!(a.1 == k)) = false := by simp [hk]
      have h2 : (a.1 == k') = false := by simp [hk]; exact hkk
      simp only [List.filter_cons, h1, Bool.false_eq_true, if_false, ih,
        List.find?_cons, h2]
    · have h1 : (!(a.1 == k)) = true := by simp [hk]
      simp only [List.filter_cons, h1, if_true, List.find?_cons]
      cases hpa : (a.1 == k') with
      | true => rfl
      | false => exact ih

/-- After filtering a key out, it can no longer be found. -/
lemma find?_filter_self (l : List (κ × α)) (k : κ) :
    (l.filter (fun kv => !(kv.1 == k))).find? (fun kv => kv.1 == k) = none := by
  induction l with
  | nil => rfl
  | cons a t ih =>
    by_cases hk : a.1 = k
    · have h1 : (!(a.1 == k)) = false := by simp [hk]
      simp only [List.filter_cons, h1, Bool.false_eq_true, if_false, ih]
    · have h1 : (!(a.1 == k)) = true := by simp [hk]
      have h2 : (a.1 == k) = false := by simp [hk]
      simp only [List.filter_cons, h1, if_true, List.find?_cons, h2,
        Bool.not_false, Bool.false_eq_true, if_false, ih]

end AssocLemmas

/-- Heading the key just put returns the new object. -/
lemma headObj_putObj_self (st : Store) (k : String) (o : StoredObj) :
    (st.putObj k o).headObj k = some o := by
  simp only [Store.putObj, Store.headObj, List.find?_cons, beq_self_eq_true,
    if_true]
  rfl

/-- Heading another key after a put is unaffected. -/
lemma headObj_putObj_ne (st : Store) (k k' : String) (o : StoredObj)
    (h : k' ≠ k) : (st.putObj k o).headObj k' = st.headObj k' := by
  have h2 : (k == k') = false := by simp; exact fun e => h e.symm
  simp only [Store.putObj, Store.headObj, List.find?_cons, h2,
    Bool.false_eq_true, if_false, find?_filter_ne st k k' h]

/-- Heading a deleted key gives nothing. -/
lemma headObj_delObj_self (st : Store) (k : String) :
    (st.delObj k).headObj k = none := by
  simp only [Store.delObj, Store.headObj, find?_filter_self]
  rfl

/-- Heading another key after a delete is unaffected. -/
lemma headObj_delObj_ne (st : Store) (k k' : String) (h : k' ≠ k) :
    (st.delObj k).headObj k' = st.headObj k' := by
  simp only [Store.delObj, Store.headObj, find?_filter_ne st k k' h]

/-- Looking up the deltaspace just written returns the new bytes. -/
lemma lookupRef_writeRef_self (c : Cache) (b p : String) (bytes : Bytes) :
    (c.writeRef b p bytes).lookupRef b p = some bytes := by
  simp only [Cache.writeRef, Cache.lookupRef, List.find?_cons, beq_self_eq_true,
    if_true]
  rfl

/-- Looking up an evicted deltaspace gives nothing. -/
lemma lookupRef_evict_self (c : Cache) (b p : String) :
    (c.evict b p).lookupRef b p = none := by
  simp only [Cache.evict, Cache.lookupRef, find?_filter_self]
  rfl

/-! ## Helper lemmas: key-string operations -/

/-- A verified character-list head start decomposes as an append. -/
lemma isPrefixOf_exists {p s : List Char} (h : p.isPrefixOf s = true) :
    ∃ t, s = p ++ t := by
  induction p generalizing s with
  | nil => exact ⟨s, rfl⟩
  | cons c p' ih =>
    cases s with
    | nil => simp [List.isPrefixOf] at h
    | cons d s' =>
      simp only [List.isPrefixOf, Bool.and_eq_true, beq_iff_eq] at h
      obtain ⟨t, ht⟩ := ih h.2
      exact ⟨t, by simp [h.1, ht]⟩

/-- A character list heads any extension of itself. -/
lemma isPrefixOf_append_self (a t : List Char) :
    a.isPrefixOf (a ++ t) = true := by
  induction a with
  | nil => simp [List.isPrefixOf]
  | cons c a' ih => simp [List.isPrefixOf, ih]

/-- `startswith` decomposition. -/
lemma strStarts_exists {s pre : String} (h : strStarts s pre = true) :
    ∃ t, s.data = pre.data ++ t :=
  isPrefixOf_exists h

/-- `endswith` decomposition. -/
lemma strEnds_exists {s suf : String} (h : strEnds s suf = true) :
    ∃ t, s.data = t ++ suf.data := by
  unfold strEnds List.isSuffixOf at h
  obtain ⟨t, ht⟩ := isPrefixOf_exists h
  refine ⟨t.reverse, ?_⟩
  have h2 := congrArg List.reverse ht
  simpa using h2

/-- `endswith` from a data decomposition. -/
lemma strEnds_of_data (s suf : String) (t : List Char)
    (h : s.data = t ++ suf.data) : strEnds s suf = true := by
  unfold strEnds List.isSuffixOf
  rw [h, List.reverse_append]
  exact isPrefixOf_append_self _ _

/-- A string ends with its appended suffix. -/
lemma strEnds_append (x suf : String) : strEnds (x ++ suf) suf = true :=
  strEnds_of_data _ _ x.data (String.data_append x suf)

/-- `endswith` is transitive through nested suffixes. -/
lemma strEnds_trans {s s1 s2 : String} (h1 : strEnds s s1 = true)
    (h2 : strEnds s1 s2 = true) : strEnds s s2 = true := by
  obtain ⟨t1, ht1⟩ := strEnds_exists h1
  obtain ⟨t2, ht2⟩ := strEnds_exists h2
  exact strEnds_of_data _ _ (t1 ++ t2) (by rw [ht1, ht2, List.append_assoc])

/-- No string ends in both `"a"` and `"n"`. -/
lemma not_ends_a_and_n (s : String) (ha : strEnds s "a" = true)
    (hn : strEnds s "n" = true) : False := by
  obtain ⟨t1, h1⟩ := strEnds_exists ha
  obtain ⟨t2, h2⟩ := strEnds_exists hn
  rw [h1] at h2
  have ha' : "a".data = ['a'] := rfl
  have hn' : "n".data = ['n'] := rfl
  rw [ha', hn'] at h2
  have := congrArg List.reverse h2
  simp at this

/-- A `*.delta` key never has the `/reference.bin` shape. -/
lemma not_refbin_of_delta (k : String) (h : strEnds k ".delta" = true) :
    strEnds k "/reference.bin" = false := by
  cases hrb : strEnds k "/reference.bin" with
  | false => rfl
  | true =>
    exact (not_ends_a_and_n k (strEnds_trans h (by decide))
      (strEnds_trans hrb (by decide))).elim

/-- `splitSlash` never returns the empty list. -/
lemma splitSlash_ne_nil (cs : List Char) : splitSlash cs ≠ [] := by
  cases cs with
  | nil => simp [splitSlash]
  | cons c rest =>
    simp only [splitSlash]
    cases splitSlash rest with
    | nil => simp
    | cons h t => by_cases hc : c = '/' <;> simp [hc]

/-- `splitSlash` distributes over an append at an explicit slash. -/
lemma splitSlash_append (xs ys : List Char) :
    splitSlash (xs ++ '/' :: ys) = splitSlash xs ++ splitSlash ys := by
  induction xs with
  | nil =>
    simp only [List.nil_append, splitSlash]
    cases hys : splitSlash ys with
    | nil => exact absurd hys (splitSlash_ne_nil ys)
    | cons h t => simp
  | cons c xs' ih =>
    rw [List.cons_append]
    rw [show splitSlash (c :: (xs' ++ '/' :: ys)) =
      (match splitSlash (xs' ++ '/' :: ys) with
       | [] => [[c]]
       | h :: t => if c = '/' then [] :: h :: t else (c :: h) :: t) from rfl]
    rw [ih]
    cases hxs : splitSlash xs' with
    | nil => exact absurd hxs (splitSlash_ne_nil xs')
    | cons h t =>
      rw [show splitSlash (c :: xs') =
        (match splitSlash xs' with
         | [] => [[c]]
         | h :: t => if c = '/' then [] :: h :: t else (c :: h) :: t) from rfl]
      rw [hxs]
      by_cases hc : c = '/' <;> simp [hc]

/-- `joinSlash` inverts `splitSlash`. -/
lemma joinSlash_splitSlash (cs : List Char) : joinSlash (splitSlash cs) = cs := by
  induction cs with
  | nil => rfl
  | cons c rest ih =>
    simp only [splitSlash]
    cases hr : splitSlash rest with
    | nil => exact absurd hr (splitSlash_ne_nil rest)
    | cons h t =>
      rw [hr] at ih
      by_cases hc : c = '/'
      · subst hc
        simpa [joinSlash] using ih
      · simp only [if_neg hc]
        cases t with
        | nil =>
          simp only [joinSlash] at ih ⊢
          rw [ih]
        | cons t1 ts =>
          simp only [joinSlash] at ih ⊢
          rw [← ih]
          simp

/-- A slash-free character list splits to a singleton. -/
lemma splitSlash_no_slash (ys : List Char) (h : '/' ∉ ys) :
    splitSlash ys = [ys] := by
  induction ys with
  | nil => rfl
  | cons c t ih =>
    have hc : c ≠ '/' := fun e => h (by simp [e])
    have ht : '/' ∉ t := fun m => h (by simp [m])
    simp [splitSlash, ih ht, hc]

/-- Dirname of `p ++ "/" ++ ys` is `p` when `ys` is slash-free. -/
lemma dirnameS_concat (s p : String) (ys : List Char)
    (hs : s.data = p.data ++ '/' :: ys) (h : '/' ∉ ys) : dirnameS s = p := by
  unfold dirnameS
  rw [hs, splitSlash_append, splitSlash_no_slash ys h, List.dropLast_concat,
    joinSlash_splitSlash]

/-- The data of `referenceKey p` for a nonempty prefix. -/
lemma referenceKey_data (p : String) (hp : p ≠ "") :
    (referenceKey p).data = p.data ++ '/' :: "reference.bin".data := by
  unfold referenceKey joinKey
  rw [if_neg hp]
  simp [String.data_append]

/-- The deltaspace prefix `get` derives from `ref_key` recovers the
deltaspace the reference key was built from. -/
lemma derivedPrefix_referenceKey (p : String) :
    derivedPrefix (referenceKey p) = p := by
  by_cases hp : p = ""
  · subst hp; rfl
  · have hd := referenceKey_data p hp
    have hc : containsChar (referenceKey p) '/' = true := by
      unfold containsChar
      rw [hd]
      simp
    unfold derivedPrefix
    rw [if_pos hc]
    exact dirnameS_concat _ p _ hd (by decide)

/-- The reference key and a `.delta` upload key never coincide. -/
lemma refKey_ne_deltaKey (p name : String) :
    referenceKey p ≠ joinKey p (name ++ ".delta") := by
  intro he
  have hdelta : strEnds (joinKey p (name ++ ".delta")) ".delta" = true := by
    unfold joinKey
    by_cases hp : p = ""
    · rw [if_pos hp]
      exact strEnds_append name ".delta"
    · rw [if_neg hp]
      refine strEnds_of_data _ _ ((p ++ "/").data ++ name.data) ?_
      simp [String.data_append]
  have hn : strEnds (referenceKey p) "n" = true := by
    by_cases hp : p = ""
    · unfold referenceKey joinKey
      rw [if_pos hp]
      decide
    · refine strEnds_trans (strEnds_of_data _ "reference.bin"
        (p.data ++ ['/']) ?_) (by decide)
      rw [referenceKey_data p hp]
      simp
  rw [he] at hn
  exact not_ends_a_and_n _ (strEnds_trans hdelta (by decide)) hn

/-! ## Helper lemmas: metadata dictionaries -/

/-- A delta's head metadata carries the `dg-file-sha256` key. -/
lemma mget_deltaMeta_dgsha (t n sha : String) (sz : Nat) (rk rs : String)
    (ds : Nat) (note : Option String) :
    mget (deltaMetaDict t n sha sz rk rs ds note) "dg-file-sha256" = some sha := by
  cases note <;> rfl

/-- A delta's head metadata has no `compression` key. -/
lemma mget_deltaMeta_compression (t n sha : String) (sz : Nat) (rk rs : String)
    (ds : Nat) (note : Option String) :
    mget (deltaMetaDict t n sha sz rk rs ds note) "compression" = none := by
  cases note <;> rfl

/-- Parsing a delta's metadata recovers the written fields. -/
lemma fromDict_deltaMeta (t n sha : String) (sz : Nat) (rk rs : String)
    (ds : Nat) (note : Option String) :
    DeltaMeta.fromDict (deltaMetaDict t n sha sz rk rs ds note) =
      some ⟨sha, rk, rs⟩ := by
  cases note <;> rfl

/-- Resolving `ref_sha256` on a delta's metadata. -/
lemma resolve_deltaMeta_refsha (t n sha : String) (sz : Nat) (rk rs : String)
    (ds : Nat) (note : Option String) :
    resolveMetadata (deltaMetaDict t n sha sz rk rs ds note) "ref_sha256" =
      some rs := by
  cases note <;> rfl

/-- A reference's head metadata carries the `dg-file-sha256` key. -/
lemma mget_refMeta_dgsha (t n sha : String) :
    mget (referenceMetaDict t n sha) "dg-file-sha256" = some sha := rfl

/-- A reference's head metadata has no `compression` key. -/
lemma mget_refMeta_compression (t n sha : String) :
    mget (referenceMetaDict t n sha) "compression" = none := rfl

/-- Resolving `file_sha256` on a reference's metadata. -/
lemma resolve_refMeta_sha (t n sha : String) :
    resolveMetadata (referenceMetaDict t n sha) "file_sha256" = some sha := rfl

/-- A reference's metadata does not parse as delta metadata: it has no
`ref_key` in either namespace. -/
lemma fromDict_refMeta (t n sha : String) :
    DeltaMeta.fromDict (referenceMetaDict t n sha) = none := rfl

/-- A direct upload's metadata (bare keys only, as written literally by
`_upload_direct`) has no `dg-file-sha256` key. -/
lemma mget_directMeta_dgsha (t n sha : String) (sz : Nat) :
    mget (directMetaDict t n sha sz) "dg-file-sha256" = none := rfl

/-- Resolving `file_sha256` on a direct upload's metadata. -/
lemma resolve_directMeta_sha (t n sha : String) (sz : Nat) :
    resolveMetadata (directMetaDict t n sha sz) "file_sha256" = some sha := rfl

/-! ## Helper lemmas: cache acquisition -/

namespace DeltaService

/-- Everything a successful validated lookup guarantees: the returned
bytes are the cached entry and they hash to the requested SHA. -/
lemma getValidatedRef_ok {env : Env} {c : Cache} {b p sha : String}
    {bytes : Bytes} (h : getValidatedRef env c b p sha = .ok bytes) :
    c.lookupRef b p = some bytes ∧ (env.hash bytes == sha) = true := by
  unfold getValidatedRef at h
  split at h
  · next v hl =>
    split at h
    · next hh =>
      injection h with h2
      subst h2
      exact ⟨hl, hh⟩
    · next hh => simp at h
  · next hl => simp at h

/-- A successful `ensureValidatedRef` returns cached bytes hashing to
the requested SHA, and the returned cache holds exactly those bytes. -/
lemma ensureValidatedRef_ok {env : Env} {w : World} {b p sha : String}
    {bytes : Bytes} {c : Cache} {hit : Bool}
    (h : ensureValidatedRef env w b p sha = .ok (bytes, c, hit)) :
    c.lookupRef b p = some bytes ∧ (env.hash bytes == sha) = true := by
  unfold ensureValidatedRef at h
  split at h
  · split at h
    · next v hv =>
      simp only [Except.ok.injEq, Prod.mk.injEq] at h
      obtain ⟨h1, h2, _⟩ := h
      subst h1
      subst h2
      exact getValidatedRef_ok hv
    · next e hv => simp at h
  · split at h
    · next e hc => simp at h
    · next c2 hc =>
      split at h
      · next v hv =>
        simp only [Except.ok.injEq, Prod.mk.injEq] at h
        obtain ⟨h1, h2, _⟩ := h
        subst h1
        subst h2
        exact getValidatedRef_ok hv
      · next e hv => simp at h

/-- A validated lookup succeeds on a cache entry with the right SHA. -/
lemma getValidatedRef_of_lookup {env : Env} {c : Cache} {b p sha : String}
    {bytes : Bytes} (hl : c.lookupRef b p = some bytes)
    (hh : (env.hash bytes == sha) = true) :
    getValidatedRef env c b p sha = .ok bytes := by
  unfold getValidatedRef
  rw [hl]
  simp [hh]

/-- `has_ref` holds on a cache entry with the right SHA. -/
lemma hasRef_of_lookup {env : Env} {c : Cache} {b p sha : String}
    {bytes : Bytes} (hl : c.lookupRef b p = some bytes)
    (hh : (env.hash bytes == sha) = true) :
    hasRef env c b p sha = true := by
  unfold hasRef
  rw [hl]
  exact hh

/-- On a warm cache entry with the right SHA, `ensureValidatedRef` is a
cache hit returning that entry. -/
lemma ensureValidatedRef_hit {env : Env} {w : World} {b p sha : String}
    {bytes : Bytes} (hl : w.cache.lookupRef b p = some bytes)
    (hh : (env.hash bytes == sha) = true) :
    ensureValidatedRef env w b p sha = .ok (bytes, w.cache, true) := by
  unfold ensureValidatedRef
  rw [if_pos (hasRef_of_lookup hl hh), getValidatedRef_of_lookup hl hh]

/-- `_create_reference` run with no interference: the re-head observes
the reference just written, whose `file_sha256` is the file's own SHA,
so the `observed != sha` branch is not taken and the zero delta binds
to `sha` itself. -/
lemma createReferenceWith_id (env : Env) (w : World) (f : File)
    (b p sha name : String) (size : Nat) :
    createReferenceWith id env w f b p sha name size =
      ({ operation := "create_reference", bucket := b, key := referenceKey p,
         originalName := name, fileSize := size, fileSha256 := sha },
       ⟨((w.store.putObj (referenceKey p)
            ⟨f.content, referenceMetaDict toolVersion name sha⟩).putObj
           (joinKey p (name ++ ".delta"))
           ⟨env.encode f.content f.content,
            deltaMetaDict toolVersion name sha size (referenceKey p) sha
              (env.encode f.content f.content).length
              (some "zero-diff (reference identical)")⟩),
        w.cache.writeRef b p f.content⟩) := by
  unfold createReferenceWith
  simp only [id_eq, headObj_putObj_self, resolve_refMeta_sha]
  rw [if_neg (fun hcon => hcon.2 rfl)]

/-- `get` of a freshly direct-uploaded object streams the bytes and
verifies them against their own hash. -/
lemma get_fresh_direct (env : Env) (st : Store) (c : Cache)
    (b k tool name : String) (target : Bytes) (size : Nat) :
    get env
      ⟨st.putObj k ⟨target, directMetaDict tool name (env.hash target) size⟩, c⟩
      b k true =
      { sink := some target, res := .ok (), cache := c, temps := [] } := by
  unfold get getDirect
  simp only [headObj_putObj_self, mget_directMeta_dgsha, Option.isNone_none,
    if_true, resolve_directMeta_sha]
  by_cases hz : env.hash target = ""
  · rw [if_pos hz]
  · rw [if_neg hz, if_pos (beq_self_eq_true (env.hash target))]

/-- `get` of a freshly written delta whose reference is cached and
matches the delta's bound `ref_sha256`: under round-tripping diff the
original bytes are delivered and verify against the stored
`file_sha256`. -/
lemma get_fresh_delta (env : Env) (hrt : DiffRoundTrip env) (st : Store)
    (c : Cache) (b p k tool name rs : String) (target refB : Bytes)
    (size dsize : Nat) (note : Option String)
    (hc : c.lookupRef b p = some refB)
    (hhash : (env.hash refB == rs) = true) :
    get env
      ⟨st.putObj k ⟨env.encode refB target,
         deltaMetaDict tool name (env.hash target) size (referenceKey p) rs
           dsize note⟩, c⟩ b k true =
      { sink := some target, res := .ok (), cache := c, temps := [] } := by
  have hcn : ((none : Option String) == some "none") = false := rfl
  unfold get
  simp only [headObj_putObj_self, mget_deltaMeta_dgsha, Option.isNone_some,
    Bool.false_eq_true, if_false, mget_deltaMeta_compression, hcn,
    fromDict_deltaMeta]
  unfold getDelta
  dsimp only
  rw [derivedPrefix_referenceKey]
  rw [ensureValidatedRef_hit hc hhash]
  have hrt' : ∀ r t, env.decode r (env.encode r t) = t := hrt
  simp only [hrt', beq_self_eq_true, if_true, withTempDir, List.filter_false]

end DeltaService

/-! ## Claims -/

/-- C10: for every put of a delta-candidate file into a deltaspace
whose `reference.bin` exists but whose head metadata carries no
`file_sha256` value in either the bare or the `dg-` namespace, `put`
raises a plain `ValueError` (`_create_delta` line 421) before any
encode or upload is attempted, leaving the object store and the cache
unchanged. -/
theorem c10_put_missing_ref_sha_raises_value_error (env : Env) (w : World)
    (f : File) (b p : String) (mr : ℚ) (h0 : StoredObj)
    (hcand : env.isCandidate f.name = true)
    (hhead : w.store.headObj (referenceKey p) = some h0)
    (hsha : resolveMetadata h0.md "file_sha256" = none) :
    DeltaService.put env w f b p mr = (.error .valueError, w) := by
  unfold DeltaService.put DeltaService.putWith DeltaService.createDelta
  simp only [id, hcand, if_true, hhead, hsha]

/-- C10 witness: the theorem applied to a concrete reference whose
metadata lacks any `file_sha256`. -/
theorem c10_witness :
    DeltaService.put envT ⟨[("p/reference.bin", ⟨[9], [("tool", "x")]⟩)], []⟩
      ⟨"f.zip", [1]⟩ "b" "p" (1/2) =
      (.error .valueError, ⟨[("p/reference.bin", ⟨[9], [("tool", "x")]⟩)], []⟩) :=
  c10_put_missing_ref_sha_raises_value_error envT
    ⟨[("p/reference.bin", ⟨[9], [("tool", "x")]⟩)], []⟩ ⟨"f.zip", [1]⟩ "b" "p"
    (1/2) ⟨[9], [("tool", "x")]⟩ rfl (by decide) (by decide)

/-- C2 counterexample: a stored object without `dg-file-sha256` but
with a bare `file_sha256` that does not match its bytes.  The claim
says `get` never raises `IntegrityMismatchError` for such an object;
the code (`_get_direct` lines 553–570) resolves the bare key and
raises. -/
theorem c2_counterexample :
    mget [("file_sha256", "nope")] "dg-file-sha256" = none ∧
    DeltaService.get envT ⟨[("raw.bin", ⟨[1], [("file_sha256", "nope")]⟩)], []⟩
        "b" "raw.bin" true =
      { sink := some [1], res := .error .integrityMismatch, cache := [],
        temps := [] } := by
  constructor
  · rfl
  · rfl

/-- C2 (amended): an object whose head metadata has no `dg-file-sha256`
key streams its bytes to the sink verbatim; when additionally no bare
or `dg-` `file_sha256` resolves (or it is empty, or the sink is a byte
stream), no verification is performed and no error is raised.  (When a
bare `file_sha256` does resolve and the sink is a file path,
`_get_direct` verifies it and can raise `IntegrityMismatchError`.) -/
theorem c2_amended_foreign_get_verbatim (env : Env) (w : World)
    (b key : String) (path : Bool) (o : StoredObj)
    (hhead : w.store.headObj key = some o)
    (hforeign : mget o.md "dg-file-sha256" = none)
    (hnov : resolveMetadata o.md "file_sha256" = none ∨
            resolveMetadata o.md "file_sha256" = some "" ∨ path = false) :
    DeltaService.get env w b key path =
      { sink := some o.content, res := .ok (), cache := w.cache,
        temps := [] } := by
  unfold DeltaService.get DeltaService.getDirect
  simp only [hhead, hforeign, Option.isNone_none, if_true]
  rcases hnov with h | h | h
  · rw [h]
  · rw [h]
    simp
  · rw [h]
    cases hres : resolveMetadata o.md "file_sha256" with
    | none => rfl
    | some s =>
      by_cases hs : s = "" <;> simp [hs]

/-- C2 witness: the amended theorem applied to a foreign object with
no resolvable SHA at all. -/
theorem c2_witness :
    DeltaService.get envT ⟨[("raw.bin", ⟨[1], [("k", "v")]⟩)], []⟩
        "b" "raw.bin" true =
      { sink := some [1], res := .ok (), cache := [], temps := [] } :=
  c2_amended_foreign_get_verbatim envT ⟨[("raw.bin", ⟨[1], [("k", "v")]⟩)], []⟩
    "b" "raw.bin" true ⟨[1], [("k", "v")]⟩ rfl (by decide) (.inl (by decide))

/-- C3: for every get of a delta object (head metadata carries
`dg-file-sha256` and `compression` is not `"none"`), once the decode
has produced output whose hash differs from the delta's stored
`file_sha256`, `get` raises `IntegrityMismatchError`, writes nothing
to the destination sink, and the temp directory's files are all
removed (the `with tempfile.TemporaryDirectory()` bracket). -/
theorem c3_delta_integrity_mismatch (env : Env) (w : World) (b key : String)
    (path : Bool) (o : StoredObj) (dgv : String) (dm : DeltaMeta)
    (refB : Bytes) (c : Cache) (hit : Bool)
    (hhead : w.store.headObj key = some o)
    (hdg : mget o.md "dg-file-sha256" = some dgv)
    (hcomp : mget o.md "compression" ≠ some "none")
    (hparse : DeltaMeta.fromDict o.md = some dm)
    (hens : DeltaService.ensureValidatedRef env w b (derivedPrefix dm.refKey)
      dm.refSha256 = .ok (refB, c, hit))
    (hmm : (env.hash (env.decode refB o.content) == dm.fileSha256) = false) :
    DeltaService.get env w b key path =
      { sink := none, res := .error .integrityMismatch, cache := c,
        temps := [] } := by
  have hcomp2 : (mget o.md "compression" == some "none") = false := by
    simp [hcomp]
  unfold DeltaService.get DeltaService.getDelta DeltaService.withTempDir
  simp only [hhead, hdg, Option.isNone_some, Bool.false_eq_true, if_false,
    hcomp2, hparse, hens, hmm, List.filter_false]

/-- C3 witness: the theorem applied to a concrete delta whose stored
`file_sha256` is wrong. -/
theorem c3_witness :
    DeltaService.get envT wMismatch "b" "p/x.delta" true =
      { sink := none, res := .error .integrityMismatch,
        cache := [(("b", "p"), [9])], temps := [] } :=
  c3_delta_integrity_mismatch envT wMismatch "b" "p/x.delta" true
    ⟨[5], deltaMetaDict "dg" "x" "WRONG" 1 "p/reference.bin"
        (toString ([9] : List Nat)) 1 none⟩
    "WRONG" ⟨"WRONG", "p/reference.bin", toString ([9] : List Nat)⟩
    [9] [(("b", "p"), [9])] false
    rfl (by decide) (by decide) (by decide) (by decide) (by decide)

/-- C4: for a put of a delta-candidate file into a deltaspace with no
existing reference, where re-heading after the reference upload (with
arbitrary interference from other writers in between) observes a
reference SHA `s` that is nonempty and differs from the file's SHA,
`put` binds the zero delta it uploads at `prefix/<name>.delta` to the
observed SHA `s`, and the returned summary is
`operation="create_reference"` keyed at the reference key — not the
delta key. -/
theorem c4_create_reference_race (interfere : Store → Store) (env : Env)
    (w : World) (f : File) (b p : String) (mr : ℚ) (hd : StoredObj) (s : String)
    (hcand : env.isCandidate f.name = true)
    (hnoref : w.store.headObj (referenceKey p) = none)
    (hhead : (interfere (w.store.putObj (referenceKey p)
        ⟨f.content, referenceMetaDict toolVersion f.name
          (env.hash f.content)⟩)).headObj (referenceKey p) = some hd)
    (hres : resolveMetadata hd.md "file_sha256" = some s)
    (hne : s ≠ "") (hne2 : s ≠ env.hash f.content) :
    DeltaService.putWith interfere env w f b p mr =
      (.ok { operation := "create_reference", bucket := b,
             key := referenceKey p, originalName := f.name,
             fileSize := f.content.length,
             fileSha256 := env.hash f.content },
       ⟨((interfere (w.store.putObj (referenceKey p)
            ⟨f.content, referenceMetaDict toolVersion f.name
              (env.hash f.content)⟩)).putObj
           (joinKey p (f.name ++ ".delta"))
           ⟨env.encode f.content f.content,
            deltaMetaDict toolVersion f.name (env.hash f.content)
              f.content.length (referenceKey p) s
              (env.encode f.content f.content).length
              (some "zero-diff (reference identical)")⟩),
        w.cache.writeRef b p f.content⟩) ∧
    (((interfere (w.store.putObj (referenceKey p)
          ⟨f.content, referenceMetaDict toolVersion f.name
            (env.hash f.content)⟩)).putObj
         (joinKey p (f.name ++ ".delta"))
         ⟨env.encode f.content f.content,
          deltaMetaDict toolVersion f.name (env.hash f.content)
            f.content.length (referenceKey p) s
            (env.encode f.content f.content).length
            (some "zero-diff (reference identical)")⟩).headObj
        (joinKey p (f.name ++ ".delta"))).map
      (fun o => resolveMetadata o.md "ref_sha256") = some (some s) ∧
    referenceKey p ≠ joinKey p (f.name ++ ".delta") := by
  refine ⟨?_, ?_, refKey_ne_deltaKey p f.name⟩
  · unfold DeltaService.putWith DeltaService.createReferenceWith
    simp only [hcand, if_true, hnoref, hhead, hres,
      if_pos (And.intro hne hne2)]
  · rw [headObj_putObj_self]
    simp [resolve_deltaMeta_refsha]

/-- C4 witness: the theorem applied with a concrete interfering writer
that replaces the reference (SHA `"OTHER"`) between the upload and the
re-head. -/
theorem c4_witness :
    DeltaService.putWith interfereT envT ⟨[], []⟩ ⟨"f.zip", [1]⟩ "b" "p"
        (1/2) =
      (.ok { operation := "create_reference", bucket := "b",
             key := referenceKey "p", originalName := "f.zip", fileSize := 1,
             fileSha256 := envT.hash [1] },
       ⟨((interfereT (Store.putObj [] (referenceKey "p")
            ⟨[1], referenceMetaDict toolVersion "f.zip" (envT.hash [1])⟩)).putObj
           (joinKey "p" ("f.zip" ++ ".delta"))
           ⟨envT.encode [1] [1],
            deltaMetaDict toolVersion "f.zip" (envT.hash [1]) 1
              (referenceKey "p") "OTHER" (envT.encode [1] [1]).length
              (some "zero-diff (reference identical)")⟩),
        Cache.writeRef [] "b" "p" [1]⟩) :=
  (c4_create_reference_race interfereT envT ⟨[], []⟩ ⟨"f.zip", [1]⟩ "b" "p"
    (1/2) ⟨[9], referenceMetaDict "dg" "g" "OTHER"⟩ "OTHER"
    rfl rfl (by decide) (by decide) (by decide) (by decide)).1

/-- C5 counterexample: deleting a root-level delta (`"x.delta"`, no
slash in the key) while `reference.bin` exists in its (root)
deltaspace and no other delta remains.  The claim requires the
reference to be deleted, the cache evicted, and `cleaned_reference`
recorded; `_delete_delta` (lines 717–718) returns before any cleanup
for slash-free keys: the reference survives and `cleaned_reference`
stays unset. -/
theorem c5_counterexample :
    DeltaService.delete wRootDelta "b" "x.delta" =
      .ok ({ key := "x.delta", bucket := "b", deleted := true,
             type := "delta", originalName := some "unknown" },
           ⟨[("reference.bin", ⟨[2], []⟩)], []⟩) ∧
    Store.headObj [("reference.bin", ⟨[2], []⟩)] (referenceKey "") =
      some ⟨[2], []⟩ := by
  constructor <;> rfl

/-- C5 (amended): for every delete of an object whose key ends in
`.delta` *and contains a slash*, the delta is deleted; and if no other
`.delta` object remains under the deltaspace prefix and
`reference.bin` exists there, the reference is also deleted, the cache
entry for that deltaspace is evicted, and `cleaned_reference` records
the reference key.  (A slash-free delta key deletes only the delta:
`_delete_delta` returns before any cleanup.) -/
theorem c5_amended_delete_delta_cleans_reference (w : World) (b key : String)
    (o ro : StoredObj)
    (hhead : w.store.headObj key = some o)
    (hdelta : strEnds key ".delta" = true)
    (hslash : containsChar key '/' = true)
    (hrem : ((w.store.delObj key).listPfx (dirnameS key)).filter
        (fun kv => strEnds kv.1 ".delta" && kv.1 != key) = [])
    (href : (w.store.delObj key).headObj
        (dirnameS key ++ "/reference.bin") = some ro) :
    DeltaService.delete w b key =
      .ok ({ key := key, bucket := b, deleted := true, type := "delta",
             originalName := some ((mget o.md "original_name").getD "unknown"),
             cleanedReference := some (dirnameS key ++ "/reference.bin") },
           ⟨(w.store.delObj key).delObj (dirnameS key ++ "/reference.bin"),
            w.cache.evict b (dirnameS key)⟩) ∧
    ((w.store.delObj key).delObj
        (dirnameS key ++ "/reference.bin")).headObj key = none ∧
    ((w.store.delObj key).delObj
        (dirnameS key ++ "/reference.bin")).headObj
      (dirnameS key ++ "/reference.bin") = none ∧
    (w.cache.evict b (dirnameS key)).lookupRef b (dirnameS key) = none := by
  have hrb : strEnds key "/reference.bin" = false := not_refbin_of_delta key hdelta
  have hne : key ≠ dirnameS key ++ "/reference.bin" := by
    intro he
    have : strEnds key "/reference.bin" = true := by
      rw [he]
      exact strEnds_append _ _
    rw [hrb] at this
    simp at this
  refine ⟨?_, ?_, headObj_delObj_self _ _, lookupRef_evict_self _ _ _⟩
  · unfold DeltaService.delete DeltaService.deleteDelta
    simp only [hhead, hrb, Bool.false_eq_true, if_false, hdelta, if_true,
      hslash, hrem, List.isEmpty_nil, href]
  · rw [headObj_delObj_ne _ _ _ hne]
    exact headObj_delObj_self _ _

/-- C5 witness: the amended theorem applied to a deltaspace `rel`
holding one delta, its reference, and a warm cache entry. -/
theorem c5_witness :
    DeltaService.delete
        ⟨[("rel/x.delta", ⟨[1], []⟩), ("rel/reference.bin", ⟨[2], []⟩)],
         [(("b", "rel"), [2])]⟩ "b" "rel/x.delta" =
      .ok ({ key := "rel/x.delta", bucket := "b", deleted := true,
             type := "delta", originalName := some "unknown",
             cleanedReference := some (dirnameS "rel/x.delta" ++
               "/reference.bin") },
           ⟨(Store.delObj [("rel/x.delta", ⟨[1], []⟩),
               ("rel/reference.bin", ⟨[2], []⟩)] "rel/x.delta").delObj
              (dirnameS "rel/x.delta" ++ "/reference.bin"),
            Cache.evict [(("b", "rel"), [2])] "b"
              (dirnameS "rel/x.delta")⟩) :=
  (c5_amended_delete_delta_cleans_reference
    ⟨[("rel/x.delta", ⟨[1], []⟩), ("rel/reference.bin", ⟨[2], []⟩)],
     [(("b", "rel"), [2])]⟩ "b" "rel/x.delta" ⟨[1], []⟩ ⟨[2], []⟩
    rfl (by decide) (by decide) (by decide) (by decide)).1

/-- The second pass only logs per-delta fallback warnings, never the
orphaned-reference warning. -/
lemma orphan_not_in_secondPass (objs : List Stats.ObjectInfo) :
    Stats.StatsWarn.orphanedReferences ∉ (Stats.secondPass objs).2.2 := by
  induction objs with
  | nil => simp [Stats.secondPass]
  | cons o rest ih =>
    simp only [Stats.secondPass]
    rcases hsp : Stats.secondPass rest with ⟨t1, rest2⟩
    rcases rest2 with ⟨t2, ws⟩
    rw [hsp] at ih
    by_cases h1 : Stats.isRefObj o.key = true
    · simp [h1, ih]
    · by_cases h2 : o.isDelta = true
      · by_cases h3 : o.originalSize ≠ 0 ∧ o.originalSize ≠ o.size
        · simp [h1, h2, h3, ih]
        · simp [h1, h2, h3, ih]
      · simp [h1, h2, ih]

/-- C8 counterexample: one delta whose `reference_key` is
`a/reference.bin` (not collected) and one collected orphan reference
`b/reference.bin` of size 50.  No delta references any collected
reference, yet the 50 bytes are added to `total_compressed_size`
(10 + 50) and no orphaned-reference warning is emitted — the code's
condition (`delta_count > 0`, `stats.py` line 275) ignores which
reference a delta points to. -/
theorem c8_counterexample :
    (Stats.calcBucketStats objsC8 "bkt").1.compressedSize = 10 + 50 ∧
    anyDeltaReferencesCollected objsC8 = false ∧
    Stats.StatsWarn.orphanedReferences ∉
      (Stats.calcBucketStats objsC8 "bkt").2 := by
  refine ⟨rfl, rfl, ?_⟩
  decide

/-- C8 (amended): the summed sizes of the collected `reference.bin`
files are added to `total_compressed_size` iff at least one delta
object exists in the bucket (the code does not check which reference a
delta points to, and the orphaned-reference warning fires iff there are
no deltas and a positive reference total); and the returned stats
satisfy `space_saved = total_size − compressed_size` and
`average_compression_ratio = space_saved / total_size` when
`total_size > 0`, else `0`. -/
theorem c8_amended_stats_equations (objs : List Stats.ObjectInfo) (b : String) :
    (Stats.calcBucketStats objs b).1.compressedSize =
      (Stats.secondPass objs).2.1 +
        (if Stats.deltaCountOf objs > 0 then Stats.refTotalOf objs else 0) ∧
    (Stats.calcBucketStats objs b).1.spaceSaved =
      ((Stats.calcBucketStats objs b).1.totalSize : Int) -
        ((Stats.calcBucketStats objs b).1.compressedSize : Int) ∧
    (Stats.calcBucketStats objs b).1.averageCompressionRatio =
      (if (Stats.calcBucketStats objs b).1.totalSize > 0 then
        (((Stats.calcBucketStats objs b).1.spaceSaved : ℚ)) /
          (((Stats.calcBucketStats objs b).1.totalSize : Nat) : ℚ)
       else 0) ∧
    (Stats.StatsWarn.orphanedReferences ∈ (Stats.calcBucketStats objs b).2 ↔
      (Stats.deltaCountOf objs = 0 ∧ Stats.refTotalOf objs > 0)) := by
  have hws : Stats.StatsWarn.orphanedReferences ∉ (Stats.secondPass objs).2.2 :=
    orphan_not_in_secondPass objs
  dsimp only [Stats.calcBucketStats]
  by_cases h1 : Stats.deltaCountOf objs > 0 ∧ Stats.refTotalOf objs > 0
  · simp only [if_pos h1]
    refine ⟨by rw [if_pos h1.1], trivial, trivial, ?_⟩
    constructor
    · intro hmem
      exact absurd hmem hws
    · intro hcond
      omega
  · rw [if_neg h1, if_neg h1]
    by_cases h2 : Stats.deltaCountOf objs = 0 ∧ Stats.refTotalOf objs > 0
    · simp only [if_pos h2]
      have hz : (if Stats.deltaCountOf objs > 0 then Stats.refTotalOf objs
          else 0) = 0 := by
        rw [if_neg]
        omega
      refine ⟨by rw [hz, Nat.add_zero], trivial, trivial, ?_⟩
      simp [hws, h2]
    · simp only [if_neg h2]
      have hz : (if Stats.deltaCountOf objs > 0 then Stats.refTotalOf objs
          else 0) = 0 := by
        by_cases hd : Stats.deltaCountOf objs > 0
        · rw [if_pos hd]
          omega
        · rw [if_neg hd]
      refine ⟨by rw [hz, Nat.add_zero], trivial, trivial, ?_⟩
      constructor
      · intro hmem
        exact absurd hmem hws
      · intro hcond
        exact absurd hcond h2

/-- C9: `get_bucket_stats` always returns a `BucketStats` and never
propagates an exception: a successful (possibly degraded) collection
yields the statistics of the collected objects with its warnings; a
collection failure yields all-zeros stats with an error logged; a
`list_objects` exception with objects already collected degrades to
partial results plus a pagination warning; an exception with zero
objects collected raises `RuntimeError` out of the collector, which
`get_bucket_stats` converts to the all-zeros result. -/
theorem c9_stats_never_propagates :
    (∀ listFn b, Stats.collectObjects listFn = .error () →
      Stats.getBucketStats listFn b =
        { stats := Stats.zeroStats b, warnings := [], errorLogged := true }) ∧
    (∀ listFn b raws ws, Stats.collectObjects listFn = .ok (raws, ws) →
      Stats.getBucketStats listFn b =
        { stats := (Stats.calcBucketStats (Stats.buildInfos raws) b).1,
          warnings := ws ++ (Stats.calcBucketStats (Stats.buildInfos raws) b).2,
          errorLogged := false }) ∧
    (∀ listFn fuel i acc ws, listFn i = .error () → acc ≠ [] →
      Stats.collectGo listFn (fuel + 1) i acc ws =
        .ok (acc, ws ++ [.paginationError])) ∧
    (∀ listFn fuel i ws, listFn i = .error () →
      Stats.collectGo listFn (fuel + 1) i [] ws = .error ()) := by
  refine ⟨?_, ?_, ?_, ?_⟩
  · intro listFn b h
    unfold Stats.getBucketStats
    rw [h]
  · intro listFn b raws ws h
    unfold Stats.getBucketStats
    rw [h]
  · intro listFn fuel i acc ws hlist hacc
    unfold Stats.collectGo
    rw [hlist]
    have : acc.isEmpty = false := by
      cases acc with
      | nil => exact absurd rfl hacc
      | cons x xs => rfl
    rw [this]
    rfl
  · intro listFn fuel i ws hlist
    unfold Stats.collectGo
    rw [hlist]
    rfl

/-- C9 witness: the theorem applied to a script that always raises
(zero collected → all-zeros stats) and to a script that raises on the
second call (partial results plus a pagination warning). -/
theorem c9_witness :
    Stats.getBucketStats lfC9b "bkt" =
      { stats := Stats.zeroStats "bkt", warnings := [], errorLogged := true } ∧
    Stats.collectGo lfC9a 9999 1 [⟨"k", 3⟩] [] =
      .ok ([⟨"k", 3⟩], [.paginationError]) :=
  ⟨c9_stats_never_propagates.1 lfC9b "bkt" (by decide),
   c9_stats_never_propagates.2.2.1 lfC9a 9998 1 [⟨"k", 3⟩] [] (by decide)
     (by decide)⟩

/-- C7: for every call of the validated reference lookup that returns
content, the returned bytes hash to the requested SHA; the embedding's
`get` (delta branch) and `createDelta` obtain reference content only
through this lookup (via `ensureValidatedRef`).  The lookup itself is
modelled from the spec (§4.4): the cache adapters are not under
`src/`, and the `CachePort` protocol in `src/deltaglider/ports/cache.py`
does not even declare `get_validated_ref` although `service.py` calls
it — see the code_bug record for this claim. -/
theorem c7_validated_ref_returns_matching_sha (env : Env) (c : Cache)
    (b p sha : String) (bytes : Bytes)
    (h : DeltaService.getValidatedRef env c b p sha = .ok bytes) :
    (env.hash bytes == sha) = true :=
  (DeltaService.getValidatedRef_ok h).2

/-- C7 witness: the lookup applied to a concrete warm cache entry. -/
theorem c7_witness :
    (envT.hash [9] == toString ([9] : List Nat)) = true :=
  c7_validated_ref_returns_matching_sha envT [(("b", "p"), [9])] "b" "p"
    (toString ([9] : List Nat)) [9] (by decide)

/-- C6 counterexample: `delete_recursive` over an empty prefix on a
bucket with two nested deltaspaces (`a` and `a/x`).  After the
non-reference pass nothing outside the (all-covering) empty deletion
prefix remains, so the claim requires every scheduled reference to be
deleted; the code's check degenerates for `prefix=""`
(`not (prefix and ...)` is always true) and keeps `a/reference.bin`
because `a/x/reference.bin` is still listed under `a`. -/
theorem c6_counterexample :
    DeltaService.c6ClaimHolds wNested "" = false ∧
    ("Kept reference a/reference.bin (still in use)") ∈
      (DeltaService.deleteRecursive wNested "b" "").1.warnings ∧
    (DeltaService.deleteRecursive wNested "b" "").2.store.headObj
      "a/reference.bin" = some ⟨[0], []⟩ := by
  refine ⟨by decide, by decide, by decide⟩

/-! ## Helper lemmas: the reference safety pass (C6) -/

/-- `any` over a filtered list folds the filter into the predicate. -/
lemma any_filter_eq {α : Type} (l : List α) (q f : α → Bool) :
    (l.filter q).any f = l.any (fun a => q a && f a) := by
  induction l with
  | nil => rfl
  | cons a t ih =>
    by_cases hq : q a = true
    · simp [List.filter_cons, hq, ih]
    · have hq2 : q a = false := by
        cases h : q a
        · rfl
        · exact absurd h hq
      simp [List.filter_cons, hq2, ih]

/-- The claim's remaining-check only reads objects outside the
deletion prefix. -/
lemma staticRemaining_eq_of_outside (p r : String) (st1 st2 : Store)
    (hfo : DeltaService.filterOutside p st1 = DeltaService.filterOutside p st2) :
    DeltaService.staticRemaining st1 p r =
      DeltaService.staticRemaining st2 p r := by
  have key : ∀ st : Store, DeltaService.staticRemaining st p r =
      (DeltaService.filterOutside p st).any
        (fun kv => strStarts kv.1 (DeltaService.refPassDs r) && kv.1 != r) := by
    intro st
    unfold DeltaService.staticRemaining Store.listPfx DeltaService.filterOutside
    rw [any_filter_eq, any_filter_eq]
    congr 1
    funext kv
    cases strStarts kv.1 p <;>
      cases strStarts kv.1 (DeltaService.refPassDs r) <;>
        cases kv.1 != r <;> rfl
  rw [key, key, hfo]

/-- For a nonempty deletion prefix, the code's `has_remaining_files`
check coincides with the claim's remaining-check. -/
lemma refRemaining_eq_static (st : Store) (p r : String) (hp : p ≠ "") :
    DeltaService.refRemaining st p r = DeltaService.staticRemaining st p r := by
  unfold DeltaService.refRemaining DeltaService.staticRemaining
  have hbne : (p != "") = true := by
    simp only [bne_iff_ne, ne_eq]
    exact hp
  simp only [hbne, Bool.true_and]

/-- Deleting a key inside the prefix leaves the outside part alone. -/
lemma filterOutside_delObj (st : Store) (p r : String)
    (h : strStarts r p = true) :
    DeltaService.filterOutside p (st.delObj r) =
      DeltaService.filterOutside p st := by
  unfold DeltaService.filterOutside Store.delObj
  induction st with
  | nil => rfl
  | cons kv t ih =>
    by_cases hk : kv.1 = r
    · have h1 : (!(kv.1 == r)) = false := by simp [hk]
      have h2 : (!(strStarts kv.1 p)) = false := by rw [hk, h]; rfl
      simp [List.filter_cons, h1, h2, ih]
    · have h1 : (!(kv.1 == r)) = true := by simp [hk]
      by_cases hs : strStarts kv.1 p = true
      · simp [List.filter_cons, h1, hs, ih]
      · have hs2 : strStarts kv.1 p = false := by
          cases h0 : strStarts kv.1 p
          · rfl
          · exact absurd h0 hs
        simp [List.filter_cons, h1, hs2, ih]

/-- References deleted by the pass come from the scheduled list. -/
lemma refPass_dels_subset (p : String) :
    ∀ (refs : List String) (st : Store) (r : String),
      r ∈ (DeltaService.refPassGo st p refs).2.1 → r ∈ refs := by
  intro refs
  induction refs with
  | nil =>
    intro st r h
    simp [DeltaService.refPassGo] at h
  | cons r1 rs ih =>
    intro st r h
    unfold DeltaService.refPassGo at h
    by_cases hrem : DeltaService.refRemaining st p r1 = true
    · rw [if_pos hrem] at h
      exact List.mem_cons_of_mem r1 (ih st r h)
    · rw [if_neg hrem] at h
      rcases List.mem_cons.mp h with h1 | h2
      · exact h1 ▸ List.mem_cons_self r1 rs
      · exact List.mem_cons_of_mem r1 (ih _ r h2)

/-- References kept by the pass come from the scheduled list. -/
lemma refPass_kept_subset (p : String) :
    ∀ (refs : List String) (st : Store) (r : String),
      r ∈ (DeltaService.refPassGo st p refs).2.2 → r ∈ refs := by
  intro refs
  induction refs with
  | nil =>
    intro st r h
    simp [DeltaService.refPassGo] at h
  | cons r1 rs ih =>
    intro st r h
    unfold DeltaService.refPassGo at h
    by_cases hrem : DeltaService.refRemaining st p r1 = true
    · rw [if_pos hrem] at h
      rcases List.mem_cons.mp h with h1 | h2
      · exact h1 ▸ List.mem_cons_self r1 rs
      · exact List.mem_cons_of_mem r1 (ih st r h2)
    · rw [if_neg hrem] at h
      exact List.mem_cons_of_mem r1 (ih _ r h)

/-- The decisions of the reference safety pass, for a nonempty
deletion prefix: each scheduled reference (all within the prefix) is
deleted iff the claim's remaining-check on the phase-2 store is empty,
and kept iff it is not — independent of the in-pass deletion order,
because the pass only deletes keys inside the prefix and the check
only reads outside it. -/
lemma refPass_decisions (p : String) (hp : p ≠ "") (st0 : Store) :
    ∀ (refs : List String) (st : Store),
      (∀ x ∈ refs, strStarts x p = true) →
      DeltaService.filterOutside p st = DeltaService.filterOutside p st0 →
      ∀ r ∈ refs,
        (r ∈ (DeltaService.refPassGo st p refs).2.1 ↔
          DeltaService.staticRemaining st0 p r = false) ∧
        (r ∈ (DeltaService.refPassGo st p refs).2.2 ↔
          DeltaService.staticRemaining st0 p r = true) := by
  intro refs
  induction refs with
  | nil => intro st _ _ r hr; cases hr
  | cons r1 rs ih =>
    intro st hstart hfo r hr
    have hdec : DeltaService.refRemaining st p r1 =
        DeltaService.staticRemaining st0 p r1 := by
      rw [refRemaining_eq_static st p r1 hp]
      exact staticRemaining_eq_of_outside p r1 st st0 hfo
    have hstart1 : strStarts r1 p = true := hstart r1 (List.mem_cons_self r1 rs)
    have hstartRest : ∀ x ∈ rs, strStarts x p = true :=
      fun x hx => hstart x (List.mem_cons_of_mem r1 hx)
    unfold DeltaService.refPassGo
    by_cases hrem : DeltaService.refRemaining st p r1 = true
    · rw [if_pos hrem]
      have hstatic1 : DeltaService.staticRemaining st0 p r1 = true := by
        rw [← hdec]
        exact hrem
      rcases List.mem_cons.mp hr with h1 | hmem
      · subst h1
        refine ⟨⟨?_, ?_⟩, ⟨fun _ => hstatic1, fun _ => List.mem_cons_self _ _⟩⟩
        · intro hin
          have hin_rs : r ∈ rs := refPass_dels_subset p rs st r hin
          exact (ih st hstartRest hfo r hin_rs).1.mp hin
        · intro hfalse
          rw [hstatic1] at hfalse
          cases hfalse
      · have hih := ih st hstartRest hfo r hmem
        refine ⟨hih.1, ⟨?_, ?_⟩⟩
        · intro hin
          rcases List.mem_cons.mp hin with h1 | hin2
          · subst h1
            exact hstatic1
          · exact hih.2.mp hin2
        · intro htrue
          exact List.mem_cons_of_mem _ (hih.2.mpr htrue)
    · rw [if_neg hrem]
      have hstatic1 : DeltaService.staticRemaining st0 p r1 = false := by
        rw [← hdec]
        exact Bool.eq_false_iff.mpr hrem
      have hfo2 : DeltaService.filterOutside p (st.delObj r1) =
          DeltaService.filterOutside p st0 := by
        rw [filterOutside_delObj st p r1 hstart1]
        exact hfo
      rcases List.mem_cons.mp hr with h1 | hmem
      · subst h1
        refine ⟨⟨fun _ => hstatic1, fun _ => List.mem_cons_self _ _⟩, ⟨?_, ?_⟩⟩
        · intro hin
          have hin_rs : r ∈ rs := refPass_kept_subset p rs _ r hin
          exact (ih _ hstartRest hfo2 r hin_rs).2.mp hin
        · intro htrue
          rw [hstatic1] at htrue
          cases htrue
      · have hih := ih _ hstartRest hfo2 r hmem
        refine ⟨⟨?_, ?_⟩, hih.2⟩
        · intro hin
          rcases List.mem_cons.mp hin with h1 | hin2
          · subst h1
            exact hstatic1
          · exact hih.1.mp hin2
        · intro hfalse
          exact List.mem_cons_of_mem _ (hih.1.mpr hfalse)

/-- Dropping the last element of an append with nonempty right part. -/
lemma dropLast_append_ne_nil {α : Type} :
    ∀ (A B : List α), B ≠ [] → (A ++ B).dropLast = A ++ B.dropLast := by
  intro A B hB
  induction A with
  | nil => rfl
  | cons a A' ih =>
    have h1 : A' ++ B ≠ [] := by
      cases A' with
      | nil => simpa using hB
      | cons x xs => simp
    rw [List.cons_append, List.dropLast_cons_of_ne_nil h1, ih]
    rfl

/-- `joinSlash` distributes over appends of nonempty part lists. -/
lemma joinSlash_append_ne_nil :
    ∀ (A C : List (List Char)), A ≠ [] → C ≠ [] →
      joinSlash (A ++ C) = joinSlash A ++ '/' :: joinSlash C := by
  intro A
  induction A with
  | nil => intro C h _; exact absurd rfl h
  | cons x A' ih =>
    intro C _ hC
    cases A' with
    | nil =>
      cases C with
      | nil => exact absurd rfl hC
      | cons c cs => rfl
    | cons y A'' =>
      have h2 := ih C (by simp) hC
      calc joinSlash ((x :: y :: A'') ++ C)
          = x ++ '/' :: joinSlash ((y :: A'') ++ C) := rfl
        _ = x ++ '/' :: (joinSlash (y :: A'') ++ '/' :: joinSlash C) := by
            rw [h2]
        _ = (x ++ '/' :: joinSlash (y :: A'')) ++ '/' :: joinSlash C := by
            simp
        _ = joinSlash (x :: y :: A'') ++ '/' :: joinSlash C := rfl

/-- Prefix tests cancel a common leading append. -/
lemma isPrefixOf_append_cancel (a x y : List Char) :
    (a ++ x).isPrefixOf (a ++ y) = x.isPrefixOf y := by
  induction a with
  | nil => rfl
  | cons c a' ih => simp [List.isPrefixOf, ih]

/-- For a delta key under a slash-terminated prefix, the
`reference.bin` of its deltaspace is under the prefix too. -/
lemma strStarts_refbin_of_delta (k p : String)
    (hk : strStarts k p = true) (hp : strEnds p "/" = true)
    (_hsl : containsChar k '/' = true) :
    strStarts (dirnameS k ++ "/reference.bin") p = true := by
  obtain ⟨q', hq⟩ := strEnds_exists hp
  obtain ⟨rest, hk2⟩ := strStarts_exists hk
  have hkdata : k.data = q' ++ '/' :: rest := by
    rw [hk2, hq]
    simp
  have hdir : (dirnameS k).data =
      joinSlash ((splitSlash q' ++ splitSlash rest).dropLast) := by
    unfold dirnameS
    rw [hkdata, splitSlash_append]
  unfold strStarts
  rw [String.data_append, hq]
  cases hdl : (splitSlash rest).dropLast with
  | nil =>
    have hsr : ∃ z, splitSlash rest = [z] := by
      cases hsplit : splitSlash rest with
      | nil => exact absurd hsplit (splitSlash_ne_nil rest)
      | cons z zs =>
        cases zs with
        | nil => exact ⟨z, rfl⟩
        | cons z2 zs2 =>
          rw [hsplit] at hdl
          simp [List.dropLast] at hdl
    obtain ⟨z, hz⟩ := hsr
    have hdq : (dirnameS k).data = q' := by
      rw [hdir, hz, List.dropLast_concat, joinSlash_splitSlash]
    rw [hdq]
    have hrb : "/reference.bin".data = '/' :: "reference.bin".data := rfl
    rw [hrb]
    have : q' ++ '/' :: "reference.bin".data =
        (q' ++ ['/']) ++ "reference.bin".data := by simp
    rw [this]
    exact isPrefixOf_append_self _ _
  | cons d ds =>
    have hBne : splitSlash rest ≠ [] := splitSlash_ne_nil rest
    have hdq : (dirnameS k).data =
        q' ++ '/' :: joinSlash (d :: ds) := by
      rw [hdir, dropLast_append_ne_nil _ _ hBne, hdl,
        joinSlash_append_ne_nil _ _ (splitSlash_ne_nil q') (by simp),
        joinSlash_splitSlash]
    rw [hdq]
    have hrb : "/reference.bin".data = '/' :: "reference.bin".data := rfl
    rw [hrb]
    have : (q' ++ '/' :: joinSlash (d :: ds)) ++ '/' :: "reference.bin".data =
        (q' ++ ['/']) ++
          (joinSlash (d :: ds) ++ '/' :: "reference.bin".data) := by simp
    rw [this]
    exact isPrefixOf_append_self _ _

/-- A normalized nonempty prefix is nonempty. -/
lemma normalize_ne_empty (p0 : String) (hp : p0 ≠ "") :
    DeltaService.normalizeDelPrefix p0 ≠ "" := by
  unfold DeltaService.normalizeDelPrefix
  by_cases h : p0 ≠ "" ∧ ¬ strEnds p0 "/" = true
  · rw [if_pos h]
    intro he
    have := congrArg String.data he
    simp [String.data_append] at this
  · rw [if_neg h]
    exact hp

/-- A normalized nonempty prefix ends in a slash. -/
lemma normalize_ends_slash (p0 : String) (hp : p0 ≠ "") :
    strEnds (DeltaService.normalizeDelPrefix p0) "/" = true := by
  unfold DeltaService.normalizeDelPrefix
  by_cases h : p0 ≠ "" ∧ ¬ strEnds p0 "/" = true
  · rw [if_pos h]
    exact strEnds_append p0 "/"
  · rw [if_neg h]
    rcases not_and_or.mp h with h1 | h2
    · exact absurd hp (by simpa using h1)
    · simpa using h2

/-- Keys classified as references come from the listing. -/
lemma classify_refs_mem : ∀ (l : List (String × StoredObj)) (r : String),
    r ∈ (DeltaService.classifyList l).refs → ∃ o, (r, o) ∈ l := by
  intro l
  induction l with
  | nil =>
    intro r h
    simp [DeltaService.classifyList] at h
  | cons kv t ih =>
    intro r h
    simp only [DeltaService.classifyList] at h
    by_cases h1 : strEnds kv.1 "/reference.bin" = true
    · rw [if_pos h1] at h
      rcases List.mem_cons.mp h with he | hm
      · exact ⟨kv.2, by rw [he]; exact List.mem_cons_self _ _⟩
      · obtain ⟨o, ho⟩ := ih r hm
        exact ⟨o, List.mem_cons_of_mem _ ho⟩
    · rw [if_neg h1] at h
      by_cases h2 : strEnds kv.1 ".delta" = true
      · rw [if_pos h2] at h
        obtain ⟨o, ho⟩ := ih r h
        exact ⟨o, List.mem_cons_of_mem _ ho⟩
      · rw [if_neg h2] at h
        by_cases h3 : (mget kv.2.md "compression" == some "none") = true
        · rw [if_pos h3] at h
          obtain ⟨o, ho⟩ := ih r h
          exact ⟨o, List.mem_cons_of_mem _ ho⟩
        · rw [if_neg h3] at h
          obtain ⟨o, ho⟩ := ih r h
          exact ⟨o, List.mem_cons_of_mem _ ho⟩

/-- Affected deltaspaces come from slash-containing delta keys in the
listing. -/
lemma classify_aff_mem : ∀ (l : List (String × StoredObj)) (ds : String),
    ds ∈ (DeltaService.classifyList l).aff →
      ∃ k o, (k, o) ∈ l ∧ strEnds k ".delta" = true ∧
        containsChar k '/' = true ∧ ds = dirnameS k := by
  intro l
  induction l with
  | nil =>
    intro ds h
    simp [DeltaService.classifyList] at h
  | cons kv t ih =>
    intro ds h
    simp only [DeltaService.classifyList] at h
    by_cases h1 : strEnds kv.1 "/reference.bin" = true
    · rw [if_pos h1] at h
      obtain ⟨k, o, hm, hd, hc, he⟩ := ih ds h
      exact ⟨k, o, List.mem_cons_of_mem _ hm, hd, hc, he⟩
    · rw [if_neg h1] at h
      by_cases h2 : strEnds kv.1 ".delta" = true
      · rw [if_pos h2] at h
        by_cases h3 : containsChar kv.1 '/' = true
        · rw [if_pos h3] at h
          by_cases h4 :
              ((DeltaService.classifyList t).aff.contains (dirnameS kv.1)) = true
          · rw [if_pos h4] at h
            obtain ⟨k, o, hm, hd, hc, he⟩ := ih ds h
            exact ⟨k, o, List.mem_cons_of_mem _ hm, hd, hc, he⟩
          · rw [if_neg h4] at h
            rcases List.mem_cons.mp h with he | hm
            · exact ⟨kv.1, kv.2, by
                exact List.mem_cons_self _ _, h2, h3, he⟩
            · obtain ⟨k, o, hm2, hd, hc, he⟩ := ih ds hm
              exact ⟨k, o, List.mem_cons_of_mem _ hm2, hd, hc, he⟩
        · rw [if_neg h3] at h
          obtain ⟨k, o, hm, hd, hc, he⟩ := ih ds h
          exact ⟨k, o, List.mem_cons_of_mem _ hm, hd, hc, he⟩
      · rw [if_neg h2] at h
        by_cases h3 : (mget kv.2.md "compression" == some "none") = true
        · rw [if_pos h3] at h
          obtain ⟨k, o, hm, hd, hc, he⟩ := ih ds h
          exact ⟨k, o, List.mem_cons_of_mem _ hm, hd, hc, he⟩
        · rw [if_neg h3] at h
          obtain ⟨k, o, hm, hd, hc, he⟩ := ih ds h
          exact ⟨k, o, List.mem_cons_of_mem _ hm, hd, hc, he⟩

/-- References added for affected deltaspaces are the deltaspaces'
`reference.bin` keys. -/
lemma addMissing_mem (st : Store) :
    ∀ (aff refs : List String) (r : String),
      r ∈ DeltaService.addMissingRefs st refs aff →
        r ∈ refs ∨ ∃ ds ∈ aff, r = ds ++ "/reference.bin" := by
  intro aff
  induction aff with
  | nil =>
    intro refs r h
    exact Or.inl h
  | cons ds rest ih =>
    intro refs r h
    unfold DeltaService.addMissingRefs at h
    by_cases h1 : refs.contains (ds ++ "/reference.bin") = true
    · rw [if_pos h1] at h
      rcases ih refs r h with hm | ⟨ds2, hds2, he⟩
      · exact Or.inl hm
      · exact Or.inr ⟨ds2, List.mem_cons_of_mem _ hds2, he⟩
    · rw [if_neg h1] at h
      cases hh : st.headObj (ds ++ "/reference.bin") with
      | some o =>
        rw [hh] at h
        rcases ih _ r h with hm | ⟨ds2, hds2, he⟩
        · rcases List.mem_append.mp hm with hm1 | hm2
          · exact Or.inl hm1
          · rcases List.mem_singleton.mp hm2 with he2
            exact Or.inr ⟨ds, List.mem_cons_self _ _, he2⟩
        · exact Or.inr ⟨ds2, List.mem_cons_of_mem _ hds2, he⟩
      | none =>
        rw [hh] at h
        rcases ih refs r h with hm | ⟨ds2, hds2, he⟩
        · exact Or.inl hm
        · exact Or.inr ⟨ds2, List.mem_cons_of_mem _ hds2, he⟩

/-- Every reference scheduled by `delete_recursive` with a nonempty
prefix lies inside the normalized deletion prefix. -/
lemma scheduledRefs_startsWith (st : Store) (p0 : String) (hp : p0 ≠ "") :
    ∀ r ∈ DeltaService.scheduledRefs st p0,
      strStarts r (DeltaService.normalizeDelPrefix p0) = true := by
  intro r hr
  unfold DeltaService.scheduledRefs at hr
  have hlist : ∀ kv ∈ st.listPfx (DeltaService.normalizeDelPrefix p0),
      strStarts kv.1 (DeltaService.normalizeDelPrefix p0) = true := by
    intro kv hkv
    exact (List.mem_filter.mp hkv).2
  rcases addMissing_mem st _ _ r hr with hm | ⟨ds, hds, he⟩
  · obtain ⟨o, ho⟩ :=
      classify_refs_mem (st.listPfx (DeltaService.normalizeDelPrefix p0)) r hm
    exact hlist (r, o) ho
  · obtain ⟨k, o, hm2, hd, hc, hde⟩ :=
      classify_aff_mem (st.listPfx (DeltaService.normalizeDelPrefix p0)) ds hds
    have hks : strStarts k (DeltaService.normalizeDelPrefix p0) = true :=
      hlist (k, o) hm2
    rw [he, hde]
    exact strStarts_refbin_of_delta k (DeltaService.normalizeDelPrefix p0) hks
      (normalize_ends_slash p0 hp) hc

/-- C6 (amended): for every `delete_recursive` with a *nonempty*
prefix, each scheduled reference is deleted by the reference pass iff
nothing still live remains in its deltaspace outside the normalized
deletion prefix (excluding the reference itself), evaluated on the
store after the non-reference deletion pass — independent of the
pass's processing order; when something remains the reference is kept
and a warning is recorded on the result.  (With an empty prefix the
outside-the-prefix restriction degenerates and the code keeps any
reference whose deltaspace still lists another object, even one inside
the deletion scope — see the counterexample.) -/
theorem c6_amended_refpass_iff (w : World) (b p0 : String) (hp : p0 ≠ "")
    (r : String) (hr : r ∈ DeltaService.scheduledRefs w.store p0) :
    (r ∈ (DeltaService.refPassGo (DeltaService.phase2Store w.store p0)
        (DeltaService.normalizeDelPrefix p0)
        (DeltaService.scheduledRefs w.store p0)).2.1 ↔
      DeltaService.staticRemaining (DeltaService.phase2Store w.store p0)
        (DeltaService.normalizeDelPrefix p0) r = false) ∧
    (DeltaService.staticRemaining (DeltaService.phase2Store w.store p0)
        (DeltaService.normalizeDelPrefix p0) r = true →
      ("Kept reference " ++ r ++ " (still in use)") ∈
        (DeltaService.deleteRecursive w b p0).1.warnings) := by
  have hstart := scheduledRefs_startsWith w.store p0 hp
  have hdec := refPass_decisions (DeltaService.normalizeDelPrefix p0)
    (normalize_ne_empty p0 hp) (DeltaService.phase2Store w.store p0)
    (DeltaService.scheduledRefs w.store p0)
    (DeltaService.phase2Store w.store p0) hstart rfl r hr
  refine ⟨hdec.1, ?_⟩
  intro htrue
  have hkept := hdec.2.mpr htrue
  unfold DeltaService.deleteRecursive
  dsimp only
  exact List.mem_map.mpr ⟨r, hkept, rfl⟩

/-- C6 witness: the amended theorem applied to the nested-deltaspace
world with the nonempty prefix `"a"`, at its scheduled reference
`a/reference.bin`. -/
theorem c6_witness :
    ("a/reference.bin" ∈ (DeltaService.refPassGo
        (DeltaService.phase2Store wNested.store "a")
        (DeltaService.normalizeDelPrefix "a")
        (DeltaService.scheduledRefs wNested.store "a")).2.1 ↔
      DeltaService.staticRemaining (DeltaService.phase2Store wNested.store "a")
        (DeltaService.normalizeDelPrefix "a") "a/reference.bin" = false) ∧
    (DeltaService.staticRemaining (DeltaService.phase2Store wNested.store "a")
        (DeltaService.normalizeDelPrefix "a") "a/reference.bin" = true →
      ("Kept reference " ++ "a/reference.bin" ++ " (still in use)") ∈
        (DeltaService.deleteRecursive wNested "b" "a").1.warnings) :=
  c6_amended_refpass_iff wNested "b" "a" (by decide) "a/reference.bin"
    (by decide)

/-- C1 counterexample: the claim says `get(put(F).key)` delivers `F`
for every successful put.  The very first put of a file into an empty
deltaspace succeeds with `operation="create_reference"` and
`summary.key = "p/reference.bin"` — and `get` of that key delivers
nothing: the reference's metadata carries `dg-file-sha256` but no
`compression` key, so `get` tries to parse it as `DeltaMeta`, whose
missing `ref_key` raises (`KeyError` in `from_dict`), sink untouched. -/
theorem c1_counterexample :
    ((DeltaService.put envT ⟨[], []⟩ ⟨"f.zip", [1]⟩ "b" "p" (1/2)).1.map
        (fun s => (s.operation, s.key)) =
      .ok ("create_reference", "p/reference.bin")) ∧
    (DeltaService.get envT
        (DeltaService.put envT ⟨[], []⟩ ⟨"f.zip", [1]⟩ "b" "p" (1/2)).2
        "b" "p/reference.bin" true).sink = none ∧
    (DeltaService.get envT
        (DeltaService.put envT ⟨[], []⟩ ⟨"f.zip", [1]⟩ "b" "p" (1/2)).2
        "b" "p/reference.bin" true).res = .error .metadataParse :=
  ⟨by decide, by decide, by decide⟩

/-- C1 (amended): assuming the diff engine round-trips, a successful
`put` makes the file recoverable byte-for-byte — by `get` of
`summary.key` itself when the operation was `upload_direct` or
`create_delta`, while for `create_reference` the returned key is the
`reference.bin` key (see the counterexample) and the file is instead
delivered by `get` of the zero-delta key `D/name.delta`.  In every
branch the delivered bytes equal `F.content`, so their SHA equals
`sha256(F)`. -/
theorem c1_amended_roundtrip (env : Env) (hrt : DiffRoundTrip env) (w : World)
    (f : File) (b p : String) (mr : ℚ) (s : DeltaService.PutSummary)
    (w' : World)
    (hput : DeltaService.put env w f b p mr = (.ok s, w')) :
    (s.operation = "upload_direct" ∨ s.operation = "create_delta" →
      DeltaService.get env w' b s.key true =
        { sink := some f.content, res := .ok (), cache := w'.cache,
          temps := [] }) ∧
    (s.operation = "create_reference" →
      s.key = referenceKey p ∧
      DeltaService.get env w' b (joinKey p (f.name ++ ".delta")) true =
        { sink := some f.content, res := .ok (), cache := w'.cache,
          temps := [] }) := by
  unfold DeltaService.put DeltaService.putWith at hput
  by_cases hcand : env.isCandidate f.name = true
  · rw [if_pos hcand] at hput
    cases hhead : w.store.headObj (referenceKey p) with
    | none =>
      simp only [hhead] at hput
      rw [DeltaService.createReferenceWith_id] at hput
      injection hput with h1 h2
      injection h1 with h1
      subst h1
      subst h2
      refine ⟨fun hop => ?_, fun _ => ⟨rfl, ?_⟩⟩
      · cases hop with
        | inl h =>
          exact absurd h
            (by decide : ("create_reference" : String) ≠ "upload_direct")
        | inr h =>
          exact absurd h
            (by decide : ("create_reference" : String) ≠ "create_delta")
      · exact DeltaService.get_fresh_delta env hrt _ _ b p _ toolVersion
          f.name _ f.content f.content _ _ _
          (lookupRef_writeRef_self _ _ _ _) (beq_self_eq_true _)
    | some h0 =>
      simp only [hhead] at hput
      unfold DeltaService.createDelta at hput
      cases hres : resolveMetadata h0.md "file_sha256" with
      | none =>
        simp only [hres] at hput
        injection hput with h1 h2
        exact Except.noConfusion h1
      | some rs =>
        simp only [hres] at hput
        by_cases hrs : rs = ""
        · rw [if_pos hrs] at hput
          injection hput with h1 h2
          exact Except.noConfusion h1
        · rw [if_neg hrs] at hput
          cases hens : DeltaService.ensureValidatedRef env w b p rs with
          | error e =>
            simp only [hens] at hput
            injection hput with h1 h2
            exact Except.noConfusion h1
          | ok v =>
            obtain ⟨refB, c, hit⟩ := v
            simp only [hens] at hput
            injection hput with h1 h2
            injection h1 with h1
            subst h1
            subst h2
            refine ⟨fun _ => ?_, fun hop => absurd hop
              (by decide : ("create_delta" : String) ≠ "create_reference")⟩
            exact DeltaService.get_fresh_delta env hrt w.store c b p _
              toolVersion f.name rs f.content refB _ _ none
              (DeltaService.ensureValidatedRef_ok hens).1
              (DeltaService.ensureValidatedRef_ok hens).2
  · rw [if_neg hcand] at hput
    dsimp only [DeltaService.uploadDirect] at hput
    injection hput with h1 h2
    injection h1 with h1
    subst h1
    subst h2
    refine ⟨fun _ => ?_, fun hop => absurd hop
      (by decide : ("upload_direct" : String) ≠ "create_reference")⟩
    exact DeltaService.get_fresh_direct env w.store w.cache b _ toolVersion
      f.name f.content _

/-- C1 witness: the amended theorem applied to the concrete first put
of `⟨"f.zip", [1]⟩` into deltaspace `"p"` of the empty world, whose
result is `(sC1, wC1)`, under the round-tripping toy environment. -/
theorem c1_witness :
    DiffRoundTrip envT ∧
    DeltaService.put envT ⟨[], []⟩ ⟨"f.zip", [1]⟩ "b" "p" (1/2) =
      (.ok sC1, wC1) ∧
    ((sC1.operation = "upload_direct" ∨ sC1.operation = "create_delta" →
        DeltaService.get envT wC1 "b" sC1.key true =
          { sink := some [1], res := .ok (), cache := wC1.cache,
            temps := [] }) ∧
     (sC1.operation = "create_reference" →
        sC1.key = referenceKey "p" ∧
        DeltaService.get envT wC1 "b" (joinKey "p" ("f.zip" ++ ".delta"))
            true =
          { sink := some [1], res := .ok (), cache := wC1.cache,
            temps := [] })) :=
  ⟨fun _ _ => rfl, by decide,
   c1_amended_roundtrip envT (fun _ _ => rfl) ⟨[], []⟩ ⟨"f.zip", [1]⟩ "b" "p"
     (1/2) sC1 wC1 (by decide)⟩

end DeltaGlider
